import Mathlib

/-!
Verification of the parental gene assignment module
(`cat/parent_gene_assignment.py`) of the Comparative-Annotation-Toolkit.

The embedding models:
* genomic exon footprints as finite sets of base positions (`Finset ℕ`);
  interval merging with gap 0 followed by length measurement coincides with
  cardinality of the covered-base set, so the Jaccard-style metrics are exact;
* Python sets and dicts as Lean lists and association lists whose order makes
  the enumeration order explicit (Python dicts preserve insertion order);
* the resolution pipeline of `assign_parents` per de novo transcript, split
  into the branch without exon conflicts (source lines 176-204) and the branch
  with exon conflicts (source lines 97-175);
* `resolve_multiple_genes`, `calculate_tx_overlap` and
  `find_highest_gene_jaccard` directly from the source.
-/

namespace CAT

attribute [local semireducible] Rat.sub

/-- Transcript model (source: rows of the genePred dictionaries):
`name` is the transcript id, `name2` the gene id, `exons` the set of exonic
base positions (the merged exon intervals at single-base resolution). -/
structure Transcript where
  name : String
  name2 : String
  exons : Finset ℕ
deriving DecidableEq

/-- Modelled from the spec: `tools.intervals.calculate_bed12_asymmetric_jaccard`
(not in src/). Asymmetric overlap: fraction of the first footprint covered by
the second; 0 when the first footprint is empty.  `mkRat` builds the exact
quotient (see `asymmetricJaccard_eq_div`). -/
def asymmetricJaccard (a b : Finset ℕ) : ℚ :=
  if a.card = 0 then 0 else mkRat ((a ∩ b).card) (a.card)

/-- Modelled from the spec: `tools.intervals.calculate_bed12_jaccard`
(not in src/). Symmetric Jaccard: intersection length over union length of the
merged footprints; 0 when both are empty. -/
def bed12Jaccard (a b : Finset ℕ) : ℚ :=
  if (a ∪ b).card = 0 then 0 else mkRat ((a ∩ b).card) ((a ∪ b).card)

theorem asymmetricJaccard_eq_div (a b : Finset ℕ) :
    asymmetricJaccard a b =
      if a.card = 0 then 0 else ((a ∩ b).card : ℚ) / (a.card : ℚ) := by
  rw [asymmetricJaccard]
  by_cases h : a.card = 0
  · rw [if_pos h, if_pos h]
  · rw [if_neg h, if_neg h, Rat.mkRat_eq_div]
    push_cast
    rfl

theorem bed12Jaccard_eq_div (a b : Finset ℕ) :
    bed12Jaccard a b =
      if (a ∪ b).card = 0 then 0 else ((a ∩ b).card : ℚ) / ((a ∪ b).card : ℚ) := by
  rw [bed12Jaccard]
  by_cases h : (a ∪ b).card = 0
  · rw [if_pos h, if_pos h]
  · rw [if_neg h, if_neg h, Rat.mkRat_eq_div]
    push_cast
    rfl

/-- Source `find_highest_gene_jaccard.find_interval`: union of the exon
intervals of a list of transcripts, gap-merged with tolerance 0.  In the
footprint model this is the union of the exon sets. -/
def find_interval (gene_list : List Transcript) : Finset ℕ :=
  gene_list.foldr (fun tx s => tx.exons ∪ s) ∅

/-- Source `find_highest_gene_jaccard`: symmetric Jaccard between the merged
exonic footprints of two transcript lists. -/
def find_highest_gene_jaccard (gene_list_a gene_list_b : List Transcript) : ℚ :=
  bed12Jaccard (find_interval gene_list_a) (find_interval gene_list_b)

/-- Source `calculate_tx_overlap`: best asymmetric overlap of `tx` against the
named transcripts, with bodies looked up in `tx_dict` (the unfiltered
transMap dictionary, modelled as a total lookup since every name passed in the
source is a key of that dictionary). -/
def calculate_tx_overlap (tx : Transcript) (tx_list : List String)
    (tx_dict : String → Transcript) : ℚ :=
  tx_list.foldl
    (fun best name =>
      let overlap := asymmetricJaccard tx.exons (tx_dict name).exons
      if best < overlap then overlap else best) 0

/-- Association-list lookup, modelling Python dict lookup. -/
def lookupA (k : String) : List (String × β) → Option β
  | [] => none
  | (k2, v) :: t => if k = k2 then some v else lookupA k t

/-- Lookup of a multimap entry, defaulting to the empty list. -/
def lookupD (k : String) (m : List (String × List β)) : List β :=
  (lookupA k m).getD []

/-- Append a value under a key of an insertion-ordered multimap, modelling the
source pattern of appending to `dict[key]` or creating a fresh singleton list
(source lines 76-87, 116-119 and 233-236). -/
def assocAppend (k : String) (v : β) : List (String × List β) → List (String × List β)
  | [] => [(k, [v])]
  | (k2, vs) :: t => if k = k2 then (k2, vs ++ [v]) :: t else (k2, vs) :: assocAppend k v t

/-- Build an insertion-ordered multimap from a list, grouping `val` under
`key`; models the grouping loops of the source. -/
def buildMulti (key : α → String) (val : α → β) (L : List α) : List (String × List β) :=
  L.foldl (fun m x => assocAppend (key x) (val x) m) []

/-- Maximum of a list of rationals, as Python `max` on a nonempty list (the
source only applies it to nonempty lists; the empty case defaults to 0). -/
def maxList : List ℚ → ℚ
  | [] => 0
  | h :: t => t.foldl max h

/-- First entry attaining the maximal score, as Python
`max(best_scores, key=...)` which keeps the earliest maximal key. -/
def firstMax : List (String × ℚ) → Option (String × ℚ)
  | [] => none
  | p :: t =>
    match firstMax t with
    | none => some p
    | some q => if q.2 > p.2 then some q else some p

/-- Ordered pairs of distinct positions, as `itertools.combinations(l, 2)`. -/
def pairs : List α → List (α × α)
  | [] => []
  | x :: t => (t.map fun y => (x, y)) ++ pairs t

/-- Comparison by score used for the stable sort in `resolve_multiple_genes`
(Python `sorted(..., key=lambda s: s[1])`). -/
def scoreLE (a b : String × ℚ) : Prop := a.2 ≤ b.2

instance : DecidableRel scoreLE := fun a b => inferInstanceAs (Decidable (a.2 ≤ b.2))

/-- Gene-to-score-list map of the disambiguation step (source lines 233-236):
each candidate transcript contributes the asymmetric overlap of the de novo
transcript against it, grouped by gene. -/
def geneScores (denovo_tx : Transcript) (overlapping_tm_txs : List Transcript) :
    List (String × List ℚ) :=
  buildMulti (fun tx => tx.name2)
    (fun tx => asymmetricJaccard denovo_tx.exons tx.exons) overlapping_tm_txs

/-- Best score per candidate gene (source line 237). -/
def bestScores (denovo_tx : Transcript) (overlapping_tm_txs : List Transcript) :
    List (String × ℚ) :=
  (geneScores denovo_tx overlapping_tm_txs).map fun p => (p.1, maxList p.2)

/-- Pairwise transMap Jaccard guard of `resolve_multiple_genes` (source lines
226-230): true when every pairwise gene-to-gene symmetric overlap exceeds
`tm_jaccard_distance`. -/
def tmCheck (overlapping_tm_txs : List Transcript) (tm_jaccard_distance : ℚ) : Bool :=
  let tm_txs_by_gene := buildMulti (fun tx => tx.name2) id overlapping_tm_txs
  let tm_jaccards := (pairs (tm_txs_by_gene.map fun p => p.2)).map
    fun p => find_highest_gene_jaccard p.1 p.2
  tm_jaccards.all fun x => decide (tm_jaccard_distance < x)

/-- Source `resolve_multiple_genes` (lines 221-248). -/
def resolve_multiple_genes (denovo_tx : Transcript) (overlapping_tm_txs : List Transcript)
    (min_distance tm_jaccard_distance : ℚ) : Option String × Option String :=
  if tmCheck overlapping_tm_txs tm_jaccard_distance then
    (none, some ("badAnnotOrTm"))
  else
    let best_scores := bestScores denovo_tx overlapping_tm_txs
    let high_score := maxList (best_scores.map fun p => p.2)
    let high_gene := ((firstMax best_scores).getD ("", 0)).1
    if (best_scores.map fun p => p.2).all
        (fun x => decide (x = high_score ∨ min_distance ≤ high_score - x)) then
      let best := ((List.insertionSort scoreLE best_scores).getLastD ("", 0)).1
      if best ≠ high_gene then (none, some ("ambiguousOrFusion"))
      else (some best, some ("rescued"))
    else (none, some ("ambiguousOrFusion"))

/-- Output record of `assign_parents` (source line 175 / 204 and the final
DataFrame columns): one row per de novo transcript. -/
structure AssignmentRecord where
  transcriptId : String
  assignedGeneId : Option String
  alternativeGeneIds : Option String
  resolutionMethod : Option String
deriving DecidableEq

/-- Combined gene-to-transcript-id map of a cluster (source lines 74-87):
first the filtered transcripts, then the unfiltered-only ones. -/
def buildGeneToTxIds (filteredTxs unfilteredOnlyTxs : List Transcript) :
    List (String × List String) :=
  buildMulti (fun tx => tx.name2) (fun tx => tx.name) (filteredTxs ++ unfilteredOnlyTxs)

/-- Deterministic ascending sort of gene ids, as Python `sorted`. -/
def sortStrings (l : List String) : List String :=
  List.insertionSort (fun a b => a ≤ b) l

/-- Retained alternative gene ids (source lines 165-170 / 194-199): genes of
the pool other than the assigned one whose best asymmetric overlap against the
de novo transcript exceeds `min_distance`. -/
def altRetained (denovo_tx : Transcript) (pool : List Transcript)
    (gene_to_tx_ids : List (String × List String)) (unfilteredDict : String → Transcript)
    (min_distance : ℚ) (resolved_name : Option String) : List String :=
  (((pool.map fun tx => tx.name2).dedup).filter fun g => decide (some g ≠ resolved_name)).filter
    fun g => decide
      (min_distance < calculate_tx_overlap denovo_tx (lookupD g gene_to_tx_ids) unfilteredDict)

/-- Alternative-gene collection and record assembly, common to both branches
(source lines 164-175 and 192-204): when no alternative survives the overlap
filter, the resolution method is reset to null and the alternative column is
null; otherwise the alternatives are emitted sorted and comma-joined. -/
def finishRecord (denovo_tx : Transcript) (pool : List Transcript)
    (gene_to_tx_ids : List (String × List String)) (unfilteredDict : String → Transcript)
    (min_distance : ℚ) (resolved_name resolution_method : Option String) : AssignmentRecord :=
  let fa := altRetained denovo_tx pool gene_to_tx_ids unfilteredDict min_distance resolved_name
  { transcriptId := denovo_tx.name
    assignedGeneId := resolved_name
    alternativeGeneIds :=
      if fa.isEmpty then none else some (String.intercalate (",") (sortStrings fa))
    resolutionMethod := if fa.isEmpty then none else resolution_method }

/-- Per-de-novo-transcript processing when the oracle reported no exon
conflicts (source lines 176-204).  `filteredTxs` enumerates the cluster
members found in the filtered transMap dictionary, `unfilteredOnlyTxs` the
remaining transMap members of the cluster (source lines 60-69). -/
def assignNoConflict (denovo_tx : Transcript) (filteredTxs unfilteredOnlyTxs : List Transcript)
    (unfilteredDict : String → Transcript) (min_distance tm_jaccard_distance : ℚ) :
    AssignmentRecord :=
  let gene_to_tx_ids := buildGeneToTxIds filteredTxs unfilteredOnlyTxs
  let filtered_gene_ids := (filteredTxs.map fun tx => tx.name2).dedup
  let rm : Option String × Option String :=
    if 1 < filtered_gene_ids.length then
      resolve_multiple_genes denovo_tx filteredTxs min_distance tm_jaccard_distance
    else if filtered_gene_ids.length = 1 then
      let tx_name := filtered_gene_ids.headD ("")
      if min_distance <
          calculate_tx_overlap denovo_tx (lookupD tx_name gene_to_tx_ids) unfilteredDict then
        (some tx_name, none)
      else (none, none)
    else (none, none)
  finishRecord denovo_tx unfilteredOnlyTxs gene_to_tx_ids unfilteredDict min_distance rm.1 rm.2

/-- Splitting a character list on the colon separator, as Python
`str.split(':')`. -/
def splitFields : List Char → List (List Char)
  | [] => [[]]
  | c :: rest =>
    let r := splitFields rest
    if c = (':' : Char) then [] :: r
    else
      match r with
      | [] => [[c]]
      | f :: fs => (c :: f) :: fs

/-- Transcript id named by an exon-conflict entry, as the source
`conflict.split(':')[1]` (entries have the form `source:transcriptId`). -/
def conflictTxId (c : String) : String :=
  ((splitFields c.data).map fun f => String.mk f).getD 1 ("")

/-- Genes classified nonoverlapping by the exon-conflict resolver (source
lines 106-125): a gene of the cluster map is nonoverlapping when the number of
conflict entries resolving to it equals the number of its transcripts in the
combined cluster map (Python tests membership in `nonoverlapping_genes`, which
is equivalent to a positive count, together with the length equality). -/
def nonoverlappingGeneIds (filteredTxs unfilteredOnlyTxs : List Transcript)
    (exon_conflicts : List String) : List String :=
  let tx_to_gene_ids := (filteredTxs ++ unfilteredOnlyTxs).map fun tx => (tx.name, tx.name2)
  let gene_to_tx_ids := buildGeneToTxIds filteredTxs unfilteredOnlyTxs
  (gene_to_tx_ids.filter fun p =>
    let cnt := (exon_conflicts.filter
      fun c => decide (lookupA (conflictTxId c) tx_to_gene_ids = some p.1)).length
    decide (0 < cnt ∧ cnt = p.2.length)).map fun p => p.1

/-- Per-de-novo-transcript processing when the oracle reported a (possibly
empty) exon-conflict list (source lines 97-175).  The subtraction of
`refiltered_nonoverlapping_tm_txs` keeps exactly the filtered cluster members
whose name is not a conflict entry (every filtered cluster member is a key of
the global filtered dictionary, so the source membership test on that
dictionary is always true for them). -/
def assignWithConflicts (denovo_tx : Transcript) (filteredTxs unfilteredOnlyTxs : List Transcript)
    (exon_conflicts : List String) (unfilteredDict : String → Transcript)
    (min_distance tm_jaccard_distance : ℚ) : AssignmentRecord :=
  let gene_to_tx_ids := buildGeneToTxIds filteredTxs unfilteredOnlyTxs
  let filtered_gene_ids := (filteredTxs.map fun tx => tx.name2).dedup
  let nonoverlapping_gene_ids := nonoverlappingGeneIds filteredTxs unfilteredOnlyTxs exon_conflicts
  let overlapping_gene_ids := filtered_gene_ids.filter
    fun g => decide (g ∉ nonoverlapping_gene_ids)
  let refiltered_overlapping_tm_txs := filteredTxs.filter
    fun tx => decide (¬ ∃ c ∈ exon_conflicts, conflictTxId c = tx.name)
  let rm : Option String × Option String :=
    if overlapping_gene_ids.length = 0 then (none, none)
    else if filtered_gene_ids.length = 1 then
      let tx_name := filtered_gene_ids.headD ("")
      if min_distance <
          calculate_tx_overlap denovo_tx (lookupD tx_name gene_to_tx_ids) unfilteredDict then
        (some tx_name, none)
      else (none, none)
    else if 0 < nonoverlapping_gene_ids.length then
      if 1 < overlapping_gene_ids.length then
        resolve_multiple_genes denovo_tx refiltered_overlapping_tm_txs
          min_distance tm_jaccard_distance
      else
        let tx_name := overlapping_gene_ids.headD ("")
        if min_distance <
            calculate_tx_overlap denovo_tx (lookupD tx_name gene_to_tx_ids) unfilteredDict then
          (some tx_name, none)
        else (none, none)
    else if 1 < overlapping_gene_ids.length then
      resolve_multiple_genes denovo_tx filteredTxs min_distance tm_jaccard_distance
    else (none, none)
  finishRecord denovo_tx refiltered_overlapping_tm_txs gene_to_tx_ids unfilteredDict
    min_distance rm.1 rm.2

/-- Dispatch per de novo transcript (source lines 95-97): the conflict branch
runs exactly when the exonConflicts cell of the cluster table is non-null. -/
def assignRecord (denovo_tx : Transcript) (filteredTxs unfilteredOnlyTxs : List Transcript)
    (exon_conflicts : Option (List String)) (unfilteredDict : String → Transcript)
    (min_distance tm_jaccard_distance : ℚ) : AssignmentRecord :=
  match exon_conflicts with
  | some cs =>
    assignWithConflicts denovo_tx filteredTxs unfilteredOnlyTxs cs unfilteredDict
      min_distance tm_jaccard_distance
  | none =>
    assignNoConflict denovo_tx filteredTxs unfilteredOnlyTxs unfilteredDict
      min_distance tm_jaccard_distance

/-- Possible (assigned gene, method) pairs produced by the decision branches
of `assign_parents` before the alternative-gene step. -/
def methodShape (rn rm : Option String) : Prop :=
  rm = none ∨ (rm = some ("badAnnotOrTm") ∧ rn = none) ∨
    (rm = some ("ambiguousOrFusion") ∧ rn = none) ∨
    (rm = some ("rescued") ∧ ∃ g, rn = some g)

/-- Row of the clusterGenes output table, restricted to the fields the
partitioning loop reads (source lines 54-69). -/
structure ClusterRow where
  gene : String
  isDenovo : Bool

/-- Partitioning of a cluster's rows into de novo, filtered and
unfiltered-only transcripts (source lines 60-69): a de novo id missing from
the de novo dictionary, or a transMap id missing from both transMap
dictionaries, raises a KeyError, modelled as an error result. -/
def collectClusterTxs (rows : List ClusterRow)
    (denovoDict filteredDict unfilteredDict : List (String × Transcript)) :
    Except String (List Transcript × List Transcript × List Transcript) :=
  match rows with
  | [] => .ok ([], [], [])
  | row :: rest =>
    if row.isDenovo then
      match lookupA row.gene denovoDict with
      | none => .error ("KeyError: " ++ row.gene)
      | some tx =>
        match collectClusterTxs rest denovoDict filteredDict unfilteredDict with
        | .error e => .error e
        | .ok (ds, fs, us) => .ok (tx :: ds, fs, us)
    else
      match lookupA row.gene filteredDict with
      | some tx =>
        match collectClusterTxs rest denovoDict filteredDict unfilteredDict with
        | .error e => .error e
        | .ok (ds, fs, us) => .ok (ds, tx :: fs, us)
      | none =>
        match lookupA row.gene unfilteredDict with
        | none => .error ("KeyError: " ++ row.gene)
        | some tx =>
          match collectClusterTxs rest denovoDict filteredDict unfilteredDict with
          | .error e => .error e
          | .ok (ds, fs, us) => .ok (ds, fs, tx :: us)

/-! ### Association-list lemmas -/

theorem lookupA_assocAppend (g k : String) (v : β) (m : List (String × List β)) :
    lookupA g (assocAppend k v m) =
      if g = k then some ((lookupA g m).getD [] ++ [v]) else lookupA g m := by
  induction m with
  | nil =>
    by_cases h : g = k <;> simp [assocAppend, lookupA, h]
  | cons p t ih =>
    obtain ⟨k2, vs⟩ := p
    by_cases hk : k = k2
    · subst hk
      by_cases hg : g = k <;> simp [assocAppend, lookupA, hg]
    · by_cases hg : g = k2
      · subst hg
        have hgk : ¬ g = k := fun h => hk h.symm
        simp [assocAppend, lookupA, hk, hgk]
      · simp [assocAppend, lookupA, hk, hg, ih]

theorem map_fst_assocAppend (k : String) (v : β) (m : List (String × List β)) :
    (assocAppend k v m).map Prod.fst =
      if k ∈ m.map Prod.fst then m.map Prod.fst else m.map Prod.fst ++ [k] := by
  induction m with
  | nil => simp [assocAppend]
  | cons p t ih =>
    obtain ⟨k2, vs⟩ := p
    by_cases hk : k = k2
    · subst hk
      simp [assocAppend]
    · have : (k ∈ k2 :: t.map Prod.fst) ↔ k ∈ t.map Prod.fst := by
        simp [hk]
      by_cases hmem : k ∈ t.map Prod.fst <;>
        simp [assocAppend, hk, hmem, ih, this]

theorem lookupA_buildMulti_aux (key : α → String) (val : α → β) (g : String) :
    ∀ (L : List α) (m0 : List (String × List β)),
      lookupA g (L.foldl (fun m x => assocAppend (key x) (val x) m) m0) =
        if (L.filter fun x => decide (key x = g)).isEmpty then lookupA g m0
        else some ((lookupA g m0).getD [] ++
          ((L.filter fun x => decide (key x = g)).map val)) := by
  intro L
  induction L with
  | nil => intro m0; simp
  | cons x t ih =>
    intro m0
    by_cases hx : key x = g
    · have hfil : ((x :: t).filter fun y => decide (key y = g)) =
          x :: (t.filter fun y => decide (key y = g)) := by
        simp [List.filter_cons, hx]
      have hlook : lookupA g (assocAppend (key x) (val x) m0) =
          some ((lookupA g m0).getD [] ++ [val x]) := by
        rw [lookupA_assocAppend, if_pos hx.symm]
      rw [List.foldl_cons, ih, hfil]
      by_cases ht : (t.filter fun y => decide (key y = g)) = []
      · simp [ht, hlook]
      · simp only [ht, List.isEmpty_eq_true, List.isEmpty_cons, if_neg, hlook,
          Option.getD_some, List.map_cons]
        simp [ht, List.append_assoc]
    · have hfil : ((x :: t).filter fun y => decide (key y = g)) =
          t.filter fun y => decide (key y = g) := by
        simp [List.filter_cons, hx]
      have hgx : ¬ g = key x := fun h => hx h.symm
      have hlook : lookupA g (assocAppend (key x) (val x) m0) = lookupA g m0 := by
        rw [lookupA_assocAppend, if_neg hgx]
      rw [List.foldl_cons, ih, hfil, hlook]

theorem lookupA_buildMulti (key : α → String) (val : α → β) (g : String) (L : List α) :
    lookupA g (buildMulti key val L) =
      if (L.filter fun x => decide (key x = g)).isEmpty then none
      else some ((L.filter fun x => decide (key x = g)).map val) := by
  have h := lookupA_buildMulti_aux key val g L []
  simpa [buildMulti, lookupA] using h

theorem lookupD_buildMulti (key : α → String) (val : α → β) (g : String) (L : List α) :
    lookupD g (buildMulti key val L) = (L.filter fun x => decide (key x = g)).map val := by
  rw [lookupD, lookupA_buildMulti]
  by_cases h : (L.filter fun x => decide (key x = g)) = [] <;> simp [h]

theorem lookupA_isSome_iff (g : String) (m : List (String × β)) :
    (lookupA g m).isSome ↔ g ∈ m.map Prod.fst := by
  induction m with
  | nil => simp [lookupA]
  | cons p t ih =>
    obtain ⟨k2, v⟩ := p
    by_cases hp : g = k2
    · simp [lookupA, hp]
    · simp [lookupA, hp, ih]

theorem mem_keys_buildMulti (key : α → String) (val : α → β) (g : String) (L : List α) :
    g ∈ (buildMulti key val L).map Prod.fst ↔ ∃ x ∈ L, key x = g := by
  rw [← lookupA_isSome_iff, lookupA_buildMulti]
  by_cases hfil : (L.filter fun x => decide (key x = g)) = []
  · simp only [hfil, List.isEmpty_nil, if_true, Option.isSome_none, Bool.false_eq_true,
      false_iff]
    rw [List.filter_eq_nil_iff] at hfil
    intro ⟨x, hxL, hxg⟩
    exact absurd (decide_eq_true hxg) (hfil x hxL)
  · have : (L.filter fun x => decide (key x = g)).isEmpty = false := by
      simpa using hfil
    simp only [this, Bool.false_eq_true, if_false, Option.isSome_some, true_iff]
    obtain ⟨x, hx⟩ := List.exists_mem_of_ne_nil _ hfil
    have h2 := List.mem_filter.mp hx
    exact ⟨x, h2.1, of_decide_eq_true h2.2⟩

theorem mem_iff_lookupA {m : List (String × γ)} (hnd : (m.map Prod.fst).Nodup)
    (g : String) (v : γ) : (g, v) ∈ m ↔ lookupA g m = some v := by
  induction m with
  | nil => simp [lookupA]
  | cons p t ih =>
    obtain ⟨k2, w⟩ := p
    simp only [List.map_cons, List.nodup_cons] at hnd
    by_cases hp : g = k2
    · subst hp
      rw [show lookupA g ((g, w) :: t) = some w from by simp [lookupA]]
      simp only [List.mem_cons, Option.some.injEq, Prod.mk.injEq]
      constructor
      · rintro (⟨-, hv⟩ | h1)
        · exact hv.symm
        · exact absurd (List.mem_map.mpr ⟨(g, v), h1, rfl⟩) hnd.1
      · intro h
        exact Or.inl ⟨by trivial, h.symm⟩
    · have hne : (g, v) ≠ (k2, w) := by
        intro h
        rw [Prod.mk.injEq] at h
        exact hp h.1
      simp [lookupA, hp, ih hnd.2, hne]

theorem nodup_keys_buildMulti (key : α → String) (val : α → β) (L : List α) :
    ((buildMulti key val L).map Prod.fst).Nodup := by
  have aux : ∀ (l : List α) (m0 : List (String × List β)), (m0.map Prod.fst).Nodup →
      ((l.foldl (fun m x => assocAppend (key x) (val x) m) m0).map Prod.fst).Nodup := by
    intro l
    induction l with
    | nil => intro m0 h; simpa using h
    | cons x t ih =>
      intro m0 h
      rw [List.foldl_cons]
      apply ih
      rw [map_fst_assocAppend]
      by_cases hmem : key x ∈ m0.map Prod.fst
      · simpa [hmem] using h
      · simp only [hmem, if_false]
        refine List.Nodup.append h (List.nodup_singleton _) ?_
        intro a ha hak
        rw [List.mem_singleton] at hak
        subst hak
        exact hmem ha
  exact aux L [] (by simp)

theorem mem_buildMulti_iff (key : α → String) (val : α → β) (g : String) (vs : List β)
    (L : List α) :
    (g, vs) ∈ buildMulti key val L ↔
      (∃ x ∈ L, key x = g) ∧ vs = (L.filter fun x => decide (key x = g)).map val := by
  rw [mem_iff_lookupA (nodup_keys_buildMulti key val L), lookupA_buildMulti]
  by_cases hfil : (L.filter fun x => decide (key x = g)) = []
  · simp only [hfil, List.isEmpty_nil, if_true]
    rw [List.filter_eq_nil_iff] at hfil
    simp only [List.map_nil]
    constructor
    · intro h
      exact absurd h (by simp)
    · intro ⟨⟨x, hxL, hxg⟩, _⟩
      exact absurd (decide_eq_true hxg) (hfil x hxL)
  · have hie : (L.filter fun x => decide (key x = g)).isEmpty = false := by
      simpa using hfil
    simp only [hie, Bool.false_eq_true, if_false, Option.some.injEq]
    obtain ⟨x, hx⟩ := List.exists_mem_of_ne_nil _ hfil
    have h2 := List.mem_filter.mp hx
    constructor
    · intro h
      exact ⟨⟨x, h2.1, of_decide_eq_true h2.2⟩, h.symm⟩
    · intro ⟨_, h⟩
      exact h.symm

/-! ### Lemmas about `maxList` -/

theorem foldl_max_shift (a b : ℚ) (l : List ℚ) :
    l.foldl max (max a b) = max a (l.foldl max b) := by
  induction l generalizing a b with
  | nil => simp
  | cons c t ih =>
    simp only [List.foldl_cons]
    rw [max_assoc, ih]

theorem maxList_cons_cons (a b : ℚ) (l : List ℚ) :
    maxList (a :: b :: l) = max a (maxList (b :: l)) := by
  simp only [maxList, List.foldl_cons]
  exact foldl_max_shift a b l

theorem maxList_mem : ∀ {l : List ℚ}, l ≠ [] → maxList l ∈ l := by
  intro l
  induction l with
  | nil => intro h; exact absurd rfl h
  | cons a t ih =>
    intro _
    match t with
    | [] => simp [maxList]
    | b :: t2 =>
      rw [maxList_cons_cons]
      rcases max_choice a (maxList (b :: t2)) with h | h
      · rw [h]; exact List.mem_cons_self _ _
      · rw [h]; exact List.mem_cons_of_mem _ (ih (by simp))

theorem le_maxList : ∀ {l : List ℚ} {x : ℚ}, x ∈ l → x ≤ maxList l := by
  intro l
  induction l with
  | nil => intro x h; simp at h
  | cons a t ih =>
    intro x h
    match t with
    | [] =>
      rw [List.mem_singleton] at h
      simp [maxList, h]
    | b :: t2 =>
      rw [maxList_cons_cons]
      rcases List.mem_cons.mp h with h1 | h1
      · rw [h1]; exact le_max_left _ _
      · exact le_trans (ih h1) (le_max_right _ _)

theorem maxList_perm {l1 l2 : List ℚ} (h : List.Perm l1 l2) : maxList l1 = maxList l2 := by
  match hl1 : l1, hl2 : l2 with
  | [], [] => rfl
  | [], b :: t2 => exact absurd h.symm (by simp [List.Perm])
  | a :: t1, [] => exact absurd h (by simp [List.Perm])
  | a :: t1, b :: t2 =>
    apply le_antisymm
    · exact le_maxList (h.mem_iff.mp (maxList_mem (by simp)))
    · exact le_maxList (h.mem_iff.mpr (maxList_mem (by simp)))

/-! ### Lemmas about `firstMax` and the stable-sort tie-break -/

theorem getLast?_cons_of_ne_nil (a : α) {l : List α} (h : l ≠ []) :
    (a :: l).getLast? = l.getLast? := by
  match l with
  | [] => exact absurd rfl h
  | b :: t => exact List.getLast?_cons_cons

theorem filter_max_ne_nil {t : List (String × ℚ)} (ht : t ≠ []) :
    (t.filter fun p => decide (p.2 = maxList (t.map fun q => q.2))) ≠ [] := by
  have hmap : t.map (fun q => q.2) ≠ [] := by
    intro h
    exact ht (List.map_eq_nil_iff.mp h)
  obtain ⟨q0, hq0, hq0v⟩ := List.mem_map.mp (maxList_mem hmap)
  exact List.ne_nil_of_mem (List.mem_filter.mpr ⟨hq0, decide_eq_true hq0v⟩)

theorem firstMax_eq_head_filter :
    ∀ (l : List (String × ℚ)), l ≠ [] →
      firstMax l = (l.filter fun p => decide (p.2 = maxList (l.map fun q => q.2))).head? := by
  intro l
  induction l with
  | nil => intro h; exact absurd rfl h
  | cons p t ih =>
    intro _
    match ht : t with
    | [] => simp [firstMax, maxList]
    | b :: t2 =>
      have htne : (b :: t2) ≠ [] := by simp
      have hfne := filter_max_ne_nil (t := b :: t2) htne
      obtain ⟨q0, hq0head⟩ : ∃ q0, ((b :: t2).filter
          fun p => decide (p.2 = maxList ((b :: t2).map fun q => q.2))).head? = some q0 :=
        ⟨_, List.head?_eq_head hfne⟩
      have hq0memf : q0 ∈ (b :: t2).filter
          fun p => decide (p.2 = maxList ((b :: t2).map fun q => q.2)) :=
        List.mem_of_mem_head? (Option.mem_def.mpr hq0head)
      have h2 := List.mem_filter.mp hq0memf
      have hq0mem : q0 ∈ (b :: t2) := h2.1
      have hq0v : q0.2 = maxList ((b :: t2).map fun q => q.2) := of_decide_eq_true h2.2
      have hfm : firstMax (b :: t2) = some q0 := by rw [ih htne, hq0head]
      have hM : maxList ((p :: b :: t2).map fun q => q.2) =
          max p.2 (maxList ((b :: t2).map fun q => q.2)) := by
        simp only [List.map_cons]
        exact maxList_cons_cons _ _ _
      by_cases hgt : maxList ((b :: t2).map fun q => q.2) > p.2
      · have hMeq : maxList ((p :: b :: t2).map fun q => q.2) =
            maxList ((b :: t2).map fun q => q.2) := by
          rw [hM]
          exact max_eq_right (le_of_lt hgt)
        have hlhs : firstMax (p :: b :: t2) = some q0 := by
          rw [firstMax, hfm]
          show (if q0.2 > p.2 then some q0 else some p) = some q0
          rw [if_pos (by rw [hq0v]; exact hgt)]
        simp only [hMeq]
        rw [hlhs, List.filter_cons,
          if_neg (by simp only [decide_eq_true_eq]; exact ne_of_lt hgt)]
        exact hq0head.symm
      · have hMeq : maxList ((p :: b :: t2).map fun q => q.2) = p.2 := by
          rw [hM]
          exact max_eq_left (not_lt.mp hgt)
        have hlhs : firstMax (p :: b :: t2) = some p := by
          rw [firstMax, hfm]
          show (if q0.2 > p.2 then some q0 else some p) = some p
          rw [if_neg (by rw [hq0v]; exact hgt)]
        simp only [hMeq]
        rw [hlhs, List.filter_cons, if_pos (by simp), List.head?_cons]

theorem getLast?_orderedInsert (p : String × ℚ) :
    ∀ (s : List (String × ℚ)),
      (List.orderedInsert scoreLE p s).getLast? =
        if ∀ q ∈ s, ¬ scoreLE p q then some p else s.getLast? := by
  intro s
  induction s with
  | nil => simp [List.orderedInsert]
  | cons q s2 ih =>
    by_cases h : scoreLE p q
    · have hcond : ¬ ∀ r ∈ q :: s2, ¬ scoreLE p r := by
        intro hall
        exact hall q (List.mem_cons_self _ _) h
      rw [List.orderedInsert, if_pos h, if_neg hcond]
      exact List.getLast?_cons_cons
    · have hne : List.orderedInsert scoreLE p s2 ≠ [] := by
        intro hnil
        have := List.orderedInsert_length (r := scoreLE) s2 p
        rw [hnil] at this
        simp at this
      rw [List.orderedInsert, if_neg h, getLast?_cons_of_ne_nil _ hne, ih]
      by_cases hall : ∀ r ∈ s2, ¬ scoreLE p r
      · have hcond : ∀ r ∈ q :: s2, ¬ scoreLE p r := by
          intro r hr
          rcases List.mem_cons.mp hr with h1 | h1
          · rw [h1]; exact h
          · exact hall r h1
        rw [if_pos hall, if_pos hcond]
      · have hcond : ¬ ∀ r ∈ q :: s2, ¬ scoreLE p r := by
          intro hc
          exact hall fun r hr => hc r (List.mem_cons_of_mem _ hr)
        have hs2ne : s2 ≠ [] := by
          intro hnil
          subst hnil
          exact hall (by intro r hr; simp at hr)
        rw [if_neg hall, if_neg hcond, getLast?_cons_of_ne_nil _ hs2ne]

theorem getLast?_insertionSort_filter :
    ∀ (l : List (String × ℚ)),
      (List.insertionSort scoreLE l).getLast? =
        (l.filter fun p => decide (p.2 = maxList (l.map fun q => q.2))).getLast? := by
  intro l
  induction l with
  | nil => simp
  | cons p t ih =>
    rw [List.insertionSort, getLast?_orderedInsert]
    have hmem : ∀ q, q ∈ List.insertionSort scoreLE t ↔ q ∈ t :=
      fun q => (List.perm_insertionSort scoreLE t).mem_iff
    match ht : t with
    | [] => simp [maxList]
    | b :: t2 =>
      have htne : (b :: t2) ≠ [] := by simp
      have hmapne : (b :: t2).map (fun q => q.2) ≠ [] := by simp
      have hfne := filter_max_ne_nil (t := b :: t2) htne
      have hM : maxList ((p :: b :: t2).map fun q => q.2) =
          max p.2 (maxList ((b :: t2).map fun q => q.2)) := by
        simp only [List.map_cons]
        exact maxList_cons_cons _ _ _
      obtain ⟨q0, hq0mem, hq0v⟩ := List.mem_map.mp (maxList_mem hmapne)
      by_cases hc : ∀ q ∈ (b :: t2), ¬ scoreLE p q
      · have hcond : ∀ q ∈ List.insertionSort scoreLE (b :: t2), ¬ scoreLE p q := by
          intro q hq
          exact hc q ((hmem q).mp hq)
        rw [if_pos hcond]
        have hlt : maxList ((b :: t2).map fun q => q.2) < p.2 := by
          have h3 : q0.2 < p.2 := not_le.mp (hc q0 hq0mem)
          rw [← hq0v]
          exact h3
        have hMeq : maxList ((p :: b :: t2).map fun q => q.2) = p.2 := by
          rw [hM]
          exact max_eq_left (le_of_lt hlt)
        simp only [hMeq]
        have hfilt : ((b :: t2).filter fun r => decide (r.2 = p.2)) = [] := by
          rw [List.filter_eq_nil_iff]
          intro r hr
          simp only [decide_eq_true_eq]
          have h4 : r.2 < p.2 := not_le.mp (hc r hr)
          exact ne_of_lt h4
        rw [List.filter_cons, if_pos (by simp), hfilt]
        simp
      · have hcond : ¬ ∀ q ∈ List.insertionSort scoreLE (b :: t2), ¬ scoreLE p q := by
          intro hall
          exact hc fun q hq => hall q ((hmem q).mpr hq)
        rw [if_neg hcond, ih]
        push_neg at hc
        obtain ⟨q1, hq1mem, hq1le⟩ := hc
        have hq1le2 : p.2 ≤ q1.2 := hq1le
        have hple : p.2 ≤ maxList ((b :: t2).map fun q => q.2) :=
          le_trans hq1le2 (le_maxList (List.mem_map.mpr ⟨q1, hq1mem, rfl⟩))
        have hMeq : maxList ((p :: b :: t2).map fun q => q.2) =
            maxList ((b :: t2).map fun q => q.2) := by
          rw [hM]
          exact max_eq_right hple
        simp only [hMeq]
        conv_rhs => rw [List.filter_cons]
        by_cases hp2 : p.2 = maxList ((b :: t2).map fun q => q.2)
        · rw [if_pos (by simp only [decide_eq_true_eq]; exact hp2)]
          exact (getLast?_cons_of_ne_nil _ hfne).symm
        · rw [if_neg (by simp only [decide_eq_true_eq]; exact hp2)]

theorem nodup_keys_bestScores (d : Transcript) (txs : List Transcript) :
    ((bestScores d txs).map Prod.fst).Nodup := by
  have h : (bestScores d txs).map Prod.fst = (geneScores d txs).map Prod.fst := by
    unfold bestScores
    rw [List.map_map]
    rfl
  rw [h]
  exact nodup_keys_buildMulti _ _ _

theorem two_le_length_of_two_mem {l : List α} {a b : α} (ha : a ∈ l) (hb : b ∈ l)
    (hne : a ≠ b) : 2 ≤ l.length := by
  match l with
  | [] => simp at ha
  | [x] =>
    rw [List.mem_singleton] at ha hb
    exact absurd (ha.trans hb.symm) hne
  | x :: y :: t => simp [Nat.succ_le_succ, Nat.le_add_left]

theorem head_ne_getLast_of_nodup_keys {l : List (String × ℚ)}
    (hnd : (l.map Prod.fst).Nodup) (hlen : 2 ≤ l.length) {a b : String × ℚ}
    (ha : l.head? = some a) (hb : l.getLast? = some b) : a.1 ≠ b.1 := by
  match l with
  | [] => simp at ha
  | [x] => simp at hlen
  | x :: y :: t =>
    rw [List.head?_cons, Option.some.injEq] at ha
    rw [List.getLast?_cons_cons] at hb
    have hbmem : b ∈ y :: t := List.mem_of_getLast?_eq_some hb
    simp only [List.map_cons, List.nodup_cons] at hnd
    subst ha
    intro hcontra
    apply hnd.1
    rw [hcontra]
    have hb1 : b.1 ∈ (y :: t).map Prod.fst := List.mem_map.mpr ⟨b, hbmem, rfl⟩
    simpa using hb1

/-- Entry of the best-score list attaining the maximum, when the list is not
empty: both the head of the max-filter and the last of the stable sort. -/
theorem bestScores_max_filter_spec (d : Transcript) (txs : List Transcript)
    {e : String × ℚ}
    (he : ((bestScores d txs).filter
      fun p => decide (p.2 = maxList ((bestScores d txs).map fun q => q.2))) = [e]) :
    firstMax (bestScores d txs) = some e ∧
      (List.insertionSort scoreLE (bestScores d txs)).getLast? = some e := by
  have hne : bestScores d txs ≠ [] := by
    intro h
    rw [h] at he
    simp at he
  constructor
  · rw [firstMax_eq_head_filter _ hne, he]
    rfl
  · rw [getLast?_insertionSort_filter, he]
    rfl

/-- C1: when a de novo transcript is disambiguated among two or more candidate
genes (the pairwise transMap-Jaccard guard did not fire), if exactly one
candidate gene attains the maximum best-asymmetric-overlap score and every
other candidate gene's score is at least `min_distance` below that maximum,
then `resolve_multiple_genes` returns that gene with method `rescued`. -/
theorem c1_unique_max_margin_rescued (d : Transcript) (txs : List Transcript)
    (md tj : ℚ) (g : String) (s : ℚ)
    (hgenes : 2 ≤ (bestScores d txs).length)
    (htm : tmCheck txs tj = false)
    (hmem : (g, s) ∈ bestScores d txs)
    (hmax : s = maxList ((bestScores d txs).map fun p => p.2))
    (huniq : ((bestScores d txs).filter
        fun p => decide (p.2 = maxList ((bestScores d txs).map fun q => q.2))).length = 1)
    (hmargin : ∀ p ∈ bestScores d txs, p.2 ≠ s → md ≤ s - p.2) :
    resolve_multiple_genes d txs md tj = (some g, some ("rescued")) := by
  obtain ⟨e, he⟩ := List.length_eq_one.mp huniq
  have hgs : (g, s) ∈ (bestScores d txs).filter
      (fun p => decide (p.2 = maxList ((bestScores d txs).map fun q => q.2))) :=
    List.mem_filter.mpr ⟨hmem, decide_eq_true hmax⟩
  have hge : (g, s) = e := by
    rw [he] at hgs
    exact List.mem_singleton.mp hgs
  obtain ⟨hfm, hlast⟩ := bestScores_max_filter_spec d txs he
  have hall : (((bestScores d txs).map fun p => p.2).all
      fun x => decide (x = maxList ((bestScores d txs).map fun p => p.2) ∨
        md ≤ maxList ((bestScores d txs).map fun p => p.2) - x)) = true := by
    rw [List.all_eq_true]
    intro x hx
    obtain ⟨p, hp, hpx⟩ := List.mem_map.mp hx
    apply decide_eq_true
    by_cases hxm : p.2 = s
    · exact Or.inl (by rw [← hpx, hxm, hmax])
    · refine Or.inr ?_
      rw [← hmax, ← hpx]
      exact hmargin p hp hxm
  rw [resolve_multiple_genes, if_neg (by simp [htm])]
  simp only []
  rw [if_pos hall, List.getLastD_eq_getLast?, hlast]
  rw [hfm]
  simp only [Option.getD_some]
  rw [if_neg (by simp)]
  rw [← hge]

/-- C2: when a de novo transcript is disambiguated among candidate genes (the
pairwise transMap-Jaccard guard did not fire) and two distinct candidate genes
attain the identical maximum score, `resolve_multiple_genes` returns no gene
with method `ambiguousOrFusion` (the tie is detected by comparing the last
element of the stable ascending sort with the first enumerated maximum). -/
theorem c2_tie_ambiguousOrFusion (d : Transcript) (txs : List Transcript)
    (md tj : ℚ) (g1 g2 : String) (s : ℚ)
    (htm : tmCheck txs tj = false)
    (h1 : (g1, s) ∈ bestScores d txs)
    (h2 : (g2, s) ∈ bestScores d txs)
    (hne : g1 ≠ g2)
    (hmax : s = maxList ((bestScores d txs).map fun p => p.2)) :
    resolve_multiple_genes d txs md tj = (none, some ("ambiguousOrFusion")) := by
  have hne2 : (g1, s) ≠ (g2, s) := by
    intro h
    exact hne (congrArg Prod.fst h)
  have hf1 : (g1, s) ∈ (bestScores d txs).filter
      (fun p => decide (p.2 = maxList ((bestScores d txs).map fun q => q.2))) :=
    List.mem_filter.mpr ⟨h1, decide_eq_true hmax⟩
  have hf2 : (g2, s) ∈ (bestScores d txs).filter
      (fun p => decide (p.2 = maxList ((bestScores d txs).map fun q => q.2))) :=
    List.mem_filter.mpr ⟨h2, decide_eq_true hmax⟩
  have hflen := two_le_length_of_two_mem hf1 hf2 hne2
  have hfnd : (((bestScores d txs).filter
      (fun p => decide (p.2 = maxList ((bestScores d txs).map fun q => q.2)))).map
        Prod.fst).Nodup :=
    List.Nodup.sublist ((List.filter_sublist _).map Prod.fst) (nodup_keys_bestScores d txs)
  have hfne : ((bestScores d txs).filter
      (fun p => decide (p.2 = maxList ((bestScores d txs).map fun q => q.2)))) ≠ [] :=
    List.ne_nil_of_mem hf1
  have hbsne : bestScores d txs ≠ [] := List.ne_nil_of_mem h1
  obtain ⟨a, hhead⟩ : ∃ a, ((bestScores d txs).filter
      (fun p => decide (p.2 = maxList ((bestScores d txs).map fun q => q.2)))).head? =
        some a := ⟨_, List.head?_eq_head hfne⟩
  obtain ⟨b, hlastf⟩ : ∃ b, ((bestScores d txs).filter
      (fun p => decide (p.2 = maxList ((bestScores d txs).map fun q => q.2)))).getLast? =
        some b := ⟨_, List.getLast?_eq_getLast _ hfne⟩
  have hab : a.1 ≠ b.1 := head_ne_getLast_of_nodup_keys hfnd hflen hhead hlastf
  have hfm : firstMax (bestScores d txs) = some a :=
    (firstMax_eq_head_filter _ hbsne).trans hhead
  have hsl : (List.insertionSort scoreLE (bestScores d txs)).getLast? = some b :=
    (getLast?_insertionSort_filter _).trans hlastf
  rw [resolve_multiple_genes, if_neg (by simp [htm])]
  simp only []
  by_cases hall : (((bestScores d txs).map fun p => p.2).all
      fun x => decide (x = maxList ((bestScores d txs).map fun p => p.2) ∨
        md ≤ maxList ((bestScores d txs).map fun p => p.2) - x)) = true
  · rw [if_pos hall, List.getLastD_eq_getLast?, hsl, hfm]
    simp only [Option.getD_some]
    rw [if_pos hab.symm]
  · rw [if_neg hall]

/-- C9: a cluster row whose transcript id is absent from the relevant
dictionary partition (de novo id missing from the de novo dictionary, or a
transMap id missing from both transMap dictionaries) makes the partitioning
fail with an error instead of skipping the entry. -/
theorem c9_missing_id_fails_fast (rows : List ClusterRow)
    (dd fd ud : List (String × Transcript))
    (h : ∃ row ∈ rows, (row.isDenovo = true ∧ lookupA row.gene dd = none) ∨
      (row.isDenovo = false ∧ lookupA row.gene fd = none ∧ lookupA row.gene ud = none)) :
    ∃ e, collectClusterTxs rows dd fd ud = .error e := by
  induction rows with
  | nil =>
    obtain ⟨row, hrow, -⟩ := h
    simp at hrow
  | cons row rest ih =>
    obtain ⟨r, hr, hbad⟩ := h
    rcases List.mem_cons.mp hr with h1 | h1
    · subst h1
      rcases hbad with ⟨hd, hl⟩ | ⟨hd, hlf, hlu⟩
      · refine ⟨"KeyError: " ++ r.gene, ?_⟩
        rw [collectClusterTxs, if_pos hd, hl]
      · refine ⟨"KeyError: " ++ r.gene, ?_⟩
        rw [collectClusterTxs, if_neg (by simp [hd]), hlf, hlu]
    · obtain ⟨e, he⟩ := ih ⟨r, h1, hbad⟩
      rw [collectClusterTxs]
      cases hdv : row.isDenovo
      · rw [if_neg (by simp)]
        cases hlf : lookupA row.gene fd with
        | some tx =>
          rw [he]
          exact ⟨e, rfl⟩
        | none =>
          cases hlu : lookupA row.gene ud with
          | none => exact ⟨_, rfl⟩
          | some tx =>
            rw [he]
            exact ⟨e, rfl⟩
      · rw [if_pos rfl]
        cases hld : lookupA row.gene dd with
        | none => exact ⟨_, rfl⟩
        | some tx =>
          rw [he]
          exact ⟨e, rfl⟩

theorem mem_txToGene_iff (L : List Transcript) (n g : String) :
    (n, g) ∈ L.map (fun tx => (tx.name, tx.name2)) ↔
      ∃ tx ∈ L, tx.name = n ∧ tx.name2 = g := by
  rw [List.mem_map]
  constructor
  · intro ⟨tx, htx, heq⟩
    rw [Prod.mk.injEq] at heq
    exact ⟨tx, htx, heq.1, heq.2⟩
  · intro ⟨tx, htx, h1, h2⟩
    exact ⟨tx, htx, by rw [h1, h2]⟩

theorem keys_txToGene (L : List Transcript) :
    (L.map fun tx => (tx.name, tx.name2)).map Prod.fst = L.map fun tx => tx.name := by
  rw [List.map_map]
  rfl

/-- Core of C5: a gene classified nonoverlapping has all the transcripts the
cluster map associates with it named in the conflict list. -/
theorem nonoverlapping_fully_conflicted
    (filteredTxs unfilteredOnlyTxs : List Transcript) (conflicts : List String)
    (hnames : ((filteredTxs ++ unfilteredOnlyTxs).map fun tx => tx.name).Nodup)
    (hconf : (conflicts.map conflictTxId).Nodup) (g : String)
    (hg : g ∈ nonoverlappingGeneIds filteredTxs unfilteredOnlyTxs conflicts) :
    ∀ tx ∈ filteredTxs ++ unfilteredOnlyTxs, tx.name2 = g →
      tx.name ∈ conflicts.map conflictTxId := by
  simp only [nonoverlappingGeneIds] at hg
  obtain ⟨p, hpfil, hpfst⟩ := List.mem_map.mp hg
  obtain ⟨g2, vs⟩ := p
  simp only at hpfst
  subst g2
  have hpmem := (List.mem_filter.mp hpfil).1
  have hpred := of_decide_eq_true (List.mem_filter.mp hpfil).2
  simp only at hpred
  rw [buildGeneToTxIds, mem_buildMulti_iff] at hpmem
  have hvs := hpmem.2
  obtain ⟨hcnt_pos, hcnt⟩ := hpred
  rw [hvs, List.length_map] at hcnt
  have hkeysnd : ((filteredTxs ++ unfilteredOnlyTxs).map
      (fun tx => (tx.name, tx.name2))).map Prod.fst |>.Nodup := by
    rw [keys_txToGene]
    exact hnames
  have hKnd : (((filteredTxs ++ unfilteredOnlyTxs).filter
      fun tx => decide (tx.name2 = g)).map fun tx => tx.name).Nodup := by
    have hsub : (((filteredTxs ++ unfilteredOnlyTxs).filter
        fun tx => decide (tx.name2 = g)).map fun tx => tx.name).Sublist
        ((filteredTxs ++ unfilteredOnlyTxs).map fun tx => tx.name) :=
      (List.filter_sublist _).map _
    exact List.Nodup.sublist hsub hnames
  have hSnd : ((conflicts.filter fun c => decide (lookupA (conflictTxId c)
      ((filteredTxs ++ unfilteredOnlyTxs).map fun tx => (tx.name, tx.name2)) =
        some g)).map conflictTxId).Nodup := by
    have hsub : ((conflicts.filter fun c => decide (lookupA (conflictTxId c)
        ((filteredTxs ++ unfilteredOnlyTxs).map fun tx => (tx.name, tx.name2)) =
          some g)).map conflictTxId).Sublist (conflicts.map conflictTxId) :=
      (List.filter_sublist _).map _
    exact List.Nodup.sublist hsub hconf
  have hSsubK : ∀ n ∈ (conflicts.filter fun c => decide (lookupA (conflictTxId c)
      ((filteredTxs ++ unfilteredOnlyTxs).map fun tx => (tx.name, tx.name2)) =
        some g)).map conflictTxId,
      n ∈ ((filteredTxs ++ unfilteredOnlyTxs).filter
        fun tx => decide (tx.name2 = g)).map fun tx => tx.name := by
    intro n hn
    obtain ⟨c, hc, hcn⟩ := List.mem_map.mp hn
    have hcl := of_decide_eq_true (List.mem_filter.mp hc).2
    have hpair : (conflictTxId c, g) ∈ (filteredTxs ++ unfilteredOnlyTxs).map
        (fun tx => (tx.name, tx.name2)) := (mem_iff_lookupA hkeysnd _ _).mpr hcl
    obtain ⟨tx, htxmem, htxn, htxg⟩ := (mem_txToGene_iff _ _ _).mp hpair
    refine List.mem_map.mpr ⟨tx, ?_, by rw [htxn, hcn]⟩
    exact List.mem_filter.mpr ⟨htxmem, decide_eq_true htxg⟩
  have hsz : ((conflicts.filter fun c => decide (lookupA (conflictTxId c)
      ((filteredTxs ++ unfilteredOnlyTxs).map fun tx => (tx.name, tx.name2)) =
        some g)).map conflictTxId).length =
      (((filteredTxs ++ unfilteredOnlyTxs).filter
        fun tx => decide (tx.name2 = g)).map fun tx => tx.name).length := by
    rw [List.length_map, List.length_map]
    exact hcnt
  have hsubperm := List.subperm_of_subset hSnd hSsubK
  have hperm := hsubperm.perm_of_length_le (le_of_eq hsz.symm)
  intro tx htx htxg
  have htxK : tx.name ∈ ((filteredTxs ++ unfilteredOnlyTxs).filter
      fun t => decide (t.name2 = g)).map fun t => t.name :=
    List.mem_map.mpr ⟨tx, List.mem_filter.mpr ⟨htx, decide_eq_true htxg⟩, rfl⟩
  have htxS := hperm.mem_iff.mpr htxK
  obtain ⟨c, hc, hcn⟩ := List.mem_map.mp htxS
  exact List.mem_map.mpr ⟨c, (List.mem_filter.mp hc).1, hcn⟩

/-- C5: during exon-conflict resolution, a gene is classified nonoverlapping
only if every one of its filtered-reference transcript ids appears in the
conflict list, and a gene with a transcript missing from the conflict list
remains a candidate (stated for duplicate-free conflict lists and
transcript names, which the oracle and the genePred dictionaries provide). -/
theorem c5_nonoverlapping_requires_full_conflict
    (filteredTxs unfilteredOnlyTxs : List Transcript) (conflicts : List String)
    (hnames : ((filteredTxs ++ unfilteredOnlyTxs).map fun tx => tx.name).Nodup)
    (hconf : (conflicts.map conflictTxId).Nodup) :
    (∀ g ∈ nonoverlappingGeneIds filteredTxs unfilteredOnlyTxs conflicts,
        ∀ tx ∈ filteredTxs, tx.name2 = g → tx.name ∈ conflicts.map conflictTxId) ∧
      (∀ g : String, (∃ tx ∈ filteredTxs, tx.name2 = g ∧
          tx.name ∉ conflicts.map conflictTxId) →
        g ∉ nonoverlappingGeneIds filteredTxs unfilteredOnlyTxs conflicts) := by
  constructor
  · intro g hgmem tx htx htxg
    exact nonoverlapping_fully_conflicted _ _ _ hnames hconf g hgmem tx
      (List.mem_append_left _ htx) htxg
  · intro g ⟨tx, htx, htxg, htxn⟩ hgmem
    exact htxn (nonoverlapping_fully_conflicted _ _ _ hnames hconf g hgmem tx
      (List.mem_append_left _ htx) htxg)

/-- Witness for C5 at a concrete cluster: one filtered transcript t1 of gene
G1 and the conflict list naming t1. -/
theorem c5_witness : ("t1") ∈ (["no:t1"].map conflictTxId) :=
  (c5_nonoverlapping_requires_full_conflict
      [⟨"t1", "G1", ∅⟩] [] ["no:t1"] (by decide) (by decide)).1
    ("G1") (by decide) ⟨"t1", "G1", ∅⟩ (by decide) rfl

/-- Counterexample to C6: a conflict entry naming a reference transMap
transcript id (t1, not a de novo identifier) changes the nonoverlapping-gene
determination, so entries naming non-de-novo transcripts are used, not
ignored. -/
theorem c6_counterexample :
    nonoverlappingGeneIds [⟨"t1", "G1", ∅⟩] [] ["no:t1"] = ["G1"] ∧
      nonoverlappingGeneIds [⟨"t1", "G1", ∅⟩] [] [] = [] := by
  constructor
  · decide
  · decide

/-- Amended C6: the conflict entries used in determining nonoverlapping genes
are exactly those whose named transcript id is a key of the cluster's
transcript-to-gene map (a reference transMap transcript of the cluster);
dropping every other entry — in particular every entry naming a de novo
transcript identifier, which is never in that map — leaves the
nonoverlapping-gene determination unchanged. -/
theorem c6_amended_ref_entries_used (filteredTxs unfilteredOnlyTxs : List Transcript)
    (conflicts : List String) :
    nonoverlappingGeneIds filteredTxs unfilteredOnlyTxs conflicts =
      nonoverlappingGeneIds filteredTxs unfilteredOnlyTxs
        (conflicts.filter fun c => (lookupA (conflictTxId c)
          ((filteredTxs ++ unfilteredOnlyTxs).map fun tx => (tx.name, tx.name2))).isSome) := by
  have hfil : ∀ (gg : String),
      (conflicts.filter fun c => decide (lookupA (conflictTxId c)
        ((filteredTxs ++ unfilteredOnlyTxs).map fun tx => (tx.name, tx.name2)) =
          some gg)) =
      ((conflicts.filter fun c => (lookupA (conflictTxId c)
        ((filteredTxs ++ unfilteredOnlyTxs).map fun tx => (tx.name, tx.name2))).isSome).filter
          fun c => decide (lookupA (conflictTxId c)
            ((filteredTxs ++ unfilteredOnlyTxs).map fun tx => (tx.name, tx.name2)) =
              some gg)) := by
    intro gg
    rw [List.filter_filter]
    apply List.filter_congr
    intro c _
    by_cases hc : lookupA (conflictTxId c)
        ((filteredTxs ++ unfilteredOnlyTxs).map fun tx => (tx.name, tx.name2)) = some gg
    · rw [hc]
      simp
    · rw [decide_eq_false hc]
      simp
  simp only [nonoverlappingGeneIds]
  apply congrArg (List.map _)
  apply List.filter_congr
  intro p hp
  rw [hfil p.1]

theorem resolve_shape (d : Transcript) (txs : List Transcript) (md tj : ℚ) :
    resolve_multiple_genes d txs md tj = (none, some ("badAnnotOrTm")) ∨
      resolve_multiple_genes d txs md tj = (none, some ("ambiguousOrFusion")) ∨
      ∃ g, resolve_multiple_genes d txs md tj = (some g, some ("rescued")) := by
  rw [resolve_multiple_genes]
  split
  · exact Or.inl rfl
  · simp only []
    split
    · split
      · exact Or.inr (Or.inl rfl)
      · exact Or.inr (Or.inr ⟨_, rfl⟩)
    · exact Or.inr (Or.inl rfl)

theorem resolve_methodShape (d : Transcript) (txs : List Transcript) (md tj : ℚ) :
    methodShape (resolve_multiple_genes d txs md tj).1
      (resolve_multiple_genes d txs md tj).2 := by
  rcases resolve_shape d txs md tj with h | h | ⟨g, h⟩ <;> rw [h]
  · exact Or.inr (Or.inl ⟨rfl, rfl⟩)
  · exact Or.inr (Or.inr (Or.inl ⟨rfl, rfl⟩))
  · exact Or.inr (Or.inr (Or.inr ⟨rfl, g, rfl⟩))

theorem finishRecord_invariants (d : Transcript) (pool : List Transcript)
    (g2t : List (String × List String)) (dict : String → Transcript) (md : ℚ)
    (rn rm : Option String) (hshape : methodShape rn rm) :
    ((finishRecord d pool g2t dict md rn rm).resolutionMethod ≠ none →
      (finishRecord d pool g2t dict md rn rm).alternativeGeneIds ≠ none) ∧
    ((finishRecord d pool g2t dict md rn rm).resolutionMethod = some ("rescued") →
      (finishRecord d pool g2t dict md rn rm).assignedGeneId ≠ none) ∧
    (((finishRecord d pool g2t dict md rn rm).resolutionMethod = some ("badAnnotOrTm") ∨
      (finishRecord d pool g2t dict md rn rm).resolutionMethod =
        some ("ambiguousOrFusion")) →
      (finishRecord d pool g2t dict md rn rm).assignedGeneId = none) := by
  rw [finishRecord]
  by_cases hfa : (altRetained d pool g2t dict md rn).isEmpty
  · simp only [hfa, if_true]
    refine ⟨fun h => absurd rfl h, fun h => ?_, fun h => ?_⟩
    · exact absurd h (by simp)
    · rcases h with h | h <;> exact absurd h (by simp)
  · simp only [hfa, Bool.false_eq_true, if_false]
    refine ⟨fun _ => by simp, fun h => ?_, fun h => ?_⟩
    · rcases hshape with hs | ⟨hs, -⟩ | ⟨hs, -⟩ | ⟨-, g, hs⟩
      · rw [hs] at h
        exact absurd h (by simp)
      · rw [hs] at h
        rw [Option.some.injEq] at h
        exact absurd h (by decide)
      · rw [hs] at h
        rw [Option.some.injEq] at h
        exact absurd h (by decide)
      · rw [hs]
        simp
    · rcases hshape with hs | ⟨hs, hn⟩ | ⟨hs, hn⟩ | ⟨hs, g, hg⟩
      · rw [hs] at h
        rcases h with h | h <;> exact absurd h (by simp)
      · exact hn
      · exact hn
      · rw [hs] at h
        rcases h with h | h <;>
          · rw [Option.some.injEq] at h
            exact absurd h (by decide)

theorem assignNoConflict_shape (d : Transcript) (f u : List Transcript)
    (dict : String → Transcript) (md tj : ℚ) :
    ∃ rn rm, methodShape rn rm ∧
      assignNoConflict d f u dict md tj =
        finishRecord d u (buildGeneToTxIds f u) dict md rn rm := by
  rw [assignNoConflict]
  simp only []
  by_cases h1 : 1 < ((f.map fun tx => tx.name2).dedup).length
  · rw [if_pos h1]
    exact ⟨_, _, resolve_methodShape d f md tj, rfl⟩
  · rw [if_neg h1]
    by_cases h2 : ((f.map fun tx => tx.name2).dedup).length = 1
    · rw [if_pos h2]
      by_cases h3 : md < calculate_tx_overlap d
          (lookupD (((f.map fun tx => tx.name2).dedup).headD ("")) (buildGeneToTxIds f u))
          dict
      · rw [if_pos h3]
        exact ⟨_, _, Or.inl rfl, rfl⟩
      · rw [if_neg h3]
        exact ⟨_, _, Or.inl rfl, rfl⟩
    · rw [if_neg h2]
      exact ⟨_, _, Or.inl rfl, rfl⟩

theorem assignWithConflicts_shape (d : Transcript) (f u : List Transcript)
    (cs : List String) (dict : String → Transcript) (md tj : ℚ) :
    ∃ rn rm, methodShape rn rm ∧
      assignWithConflicts d f u cs dict md tj =
        finishRecord d
          (f.filter fun tx => decide (¬ ∃ c ∈ cs, conflictTxId c = tx.name))
          (buildGeneToTxIds f u) dict md rn rm := by
  rw [assignWithConflicts]
  simp only []
  by_cases h1 : (((f.map fun tx => tx.name2).dedup).filter
      fun g => decide (g ∉ nonoverlappingGeneIds f u cs)).length = 0
  · rw [if_pos h1]
    exact ⟨_, _, Or.inl rfl, rfl⟩
  · rw [if_neg h1]
    by_cases h2 : ((f.map fun tx => tx.name2).dedup).length = 1
    · rw [if_pos h2]
      by_cases h3 : md < calculate_tx_overlap d
          (lookupD (((f.map fun tx => tx.name2).dedup).headD ("")) (buildGeneToTxIds f u))
          dict
      · rw [if_pos h3]
        exact ⟨_, _, Or.inl rfl, rfl⟩
      · rw [if_neg h3]
        exact ⟨_, _, Or.inl rfl, rfl⟩
    · rw [if_neg h2]
      by_cases h4 : 0 < (nonoverlappingGeneIds f u cs).length
      · rw [if_pos h4]
        by_cases h5 : 1 < (((f.map fun tx => tx.name2).dedup).filter
            fun g => decide (g ∉ nonoverlappingGeneIds f u cs)).length
        · rw [if_pos h5]
          exact ⟨_, _, resolve_methodShape d _ md tj, rfl⟩
        · rw [if_neg h5]
          by_cases h6 : md < calculate_tx_overlap d
              (lookupD (((((f.map fun tx => tx.name2).dedup).filter
                fun g => decide (g ∉ nonoverlappingGeneIds f u cs))).headD (""))
                (buildGeneToTxIds f u)) dict
          · rw [if_pos h6]
            exact ⟨_, _, Or.inl rfl, rfl⟩
          · rw [if_neg h6]
            exact ⟨_, _, Or.inl rfl, rfl⟩
      · rw [if_neg h4]
        by_cases h7 : 1 < (((f.map fun tx => tx.name2).dedup).filter
            fun g => decide (g ∉ nonoverlappingGeneIds f u cs)).length
        · rw [if_pos h7]
          exact ⟨_, _, resolve_methodShape d f md tj, rfl⟩
        · rw [if_neg h7]
          exact ⟨_, _, Or.inl rfl, rfl⟩

/-- C8: every emitted record satisfies the method/assignment invariants: a
non-null resolution method comes with non-null alternatives, `rescued` comes
with an assigned gene, and `badAnnotOrTm` or `ambiguousOrFusion` come with a
null assigned gene. -/
theorem c8_record_invariants (d : Transcript) (f u : List Transcript)
    (confs : Option (List String)) (dict : String → Transcript) (md tj : ℚ) :
    ((assignRecord d f u confs dict md tj).resolutionMethod ≠ none →
      (assignRecord d f u confs dict md tj).alternativeGeneIds ≠ none) ∧
    ((assignRecord d f u confs dict md tj).resolutionMethod = some ("rescued") →
      (assignRecord d f u confs dict md tj).assignedGeneId ≠ none) ∧
    (((assignRecord d f u confs dict md tj).resolutionMethod = some ("badAnnotOrTm") ∨
      (assignRecord d f u confs dict md tj).resolutionMethod =
        some ("ambiguousOrFusion")) →
      (assignRecord d f u confs dict md tj).assignedGeneId = none) := by
  match confs with
  | none =>
    obtain ⟨rn, rm, hs, heq⟩ := assignNoConflict_shape d f u dict md tj
    have hrw : assignRecord d f u none dict md tj =
        finishRecord d u (buildGeneToTxIds f u) dict md rn rm := heq
    rw [hrw]
    exact finishRecord_invariants d u (buildGeneToTxIds f u) dict md rn rm hs
  | some cs =>
    obtain ⟨rn, rm, hs, heq⟩ := assignWithConflicts_shape d f u cs dict md tj
    have hrw : assignRecord d f u (some cs) dict md tj =
        finishRecord d (f.filter fun tx => decide (¬ ∃ c ∈ cs, conflictTxId c = tx.name))
          (buildGeneToTxIds f u) dict md rn rm := heq
    rw [hrw]
    exact finishRecord_invariants d _ (buildGeneToTxIds f u) dict md rn rm hs

theorem finishRecord_fields (d : Transcript) (pool : List Transcript)
    (g2t : List (String × List String)) (dict : String → Transcript) (md : ℚ)
    (rn : Option String) :
    (finishRecord d pool g2t dict md rn none).assignedGeneId = rn ∧
      (finishRecord d pool g2t dict md rn none).resolutionMethod = none := by
  rw [finishRecord]
  refine ⟨rfl, ?_⟩
  by_cases hfa : (altRetained d pool g2t dict md rn).isEmpty <;> simp [hfa]

theorem singleGene_noConflict (d : Transcript) (f u : List Transcript)
    (dict : String → Transcript) (md tj : ℚ) (G : String)
    (hG : (f.map fun tx => tx.name2).dedup = [G]) :
    (assignNoConflict d f u dict md tj).assignedGeneId =
      (if md < calculate_tx_overlap d (lookupD G (buildGeneToTxIds f u)) dict
        then some G else none) ∧
      (assignNoConflict d f u dict md tj).resolutionMethod = none := by
  rw [assignNoConflict]
  simp only []
  rw [hG]
  rw [if_neg (by simp)]
  rw [if_pos (by simp)]
  simp only [List.headD_cons]
  by_cases h3 : md < calculate_tx_overlap d (lookupD G (buildGeneToTxIds f u)) dict
  · rw [if_pos h3, if_pos h3]
    exact finishRecord_fields d u (buildGeneToTxIds f u) dict md (some G)
  · rw [if_neg h3, if_neg h3]
    exact finishRecord_fields d u (buildGeneToTxIds f u) dict md none

theorem singleGene_withConflicts (d : Transcript) (f u : List Transcript)
    (cs : List String) (dict : String → Transcript) (md tj : ℚ) (G : String)
    (hG : (f.map fun tx => tx.name2).dedup = [G])
    (hov : ((f.map fun tx => tx.name2).dedup.filter
      fun g => decide (g ∉ nonoverlappingGeneIds f u cs)) = [G]) :
    (assignWithConflicts d f u cs dict md tj).assignedGeneId =
      (if md < calculate_tx_overlap d (lookupD G (buildGeneToTxIds f u)) dict
        then some G else none) ∧
      (assignWithConflicts d f u cs dict md tj).resolutionMethod = none := by
  rw [assignWithConflicts]
  simp only []
  rw [hov, hG]
  rw [if_neg (by simp)]
  rw [if_pos (by simp)]
  simp only [List.headD_cons]
  by_cases h3 : md < calculate_tx_overlap d (lookupD G (buildGeneToTxIds f u)) dict
  · rw [if_pos h3, if_pos h3]
    exact finishRecord_fields d _ (buildGeneToTxIds f u) dict md (some G)
  · rw [if_neg h3, if_neg h3]
    exact finishRecord_fields d _ (buildGeneToTxIds f u) dict md none

/-- C4: in a cluster whose de novo transcript has exactly one candidate gene G
(the only filtered-reference gene, and in the conflict branch the only
conflict-surviving gene), the emitted record is (G, null method) when the best
asymmetric overlap of the de novo transcript against G's transcripts computed
over the unfiltered bodies strictly exceeds min_distance, and (null, null)
otherwise. -/
theorem c4_single_candidate (d : Transcript) (f u : List Transcript)
    (dict : String → Transcript) (md tj : ℚ) (G : String)
    (hG : (f.map fun tx => tx.name2).dedup = [G]) :
    ((md < calculate_tx_overlap d (lookupD G (buildGeneToTxIds f u)) dict →
        (assignNoConflict d f u dict md tj).assignedGeneId = some G ∧
          (assignNoConflict d f u dict md tj).resolutionMethod = none) ∧
      (¬ md < calculate_tx_overlap d (lookupD G (buildGeneToTxIds f u)) dict →
        (assignNoConflict d f u dict md tj).assignedGeneId = none ∧
          (assignNoConflict d f u dict md tj).resolutionMethod = none)) ∧
    ∀ cs : List String,
      ((f.map fun tx => tx.name2).dedup.filter
        fun g => decide (g ∉ nonoverlappingGeneIds f u cs)) = [G] →
      ((md < calculate_tx_overlap d (lookupD G (buildGeneToTxIds f u)) dict →
          (assignWithConflicts d f u cs dict md tj).assignedGeneId = some G ∧
            (assignWithConflicts d f u cs dict md tj).resolutionMethod = none) ∧
        (¬ md < calculate_tx_overlap d (lookupD G (buildGeneToTxIds f u)) dict →
          (assignWithConflicts d f u cs dict md tj).assignedGeneId = none ∧
            (assignWithConflicts d f u cs dict md tj).resolutionMethod = none)) := by
  obtain ⟨ha1, ha2⟩ := singleGene_noConflict d f u dict md tj G hG
  refine ⟨⟨fun h3 => ⟨by rw [ha1, if_pos h3], ha2⟩,
    fun h3 => ⟨by rw [ha1, if_neg h3], ha2⟩⟩, ?_⟩
  intro cs hov
  obtain ⟨hb1, hb2⟩ := singleGene_withConflicts d f u cs dict md tj G hG hov
  exact ⟨fun h3 => ⟨by rw [hb1, if_pos h3], hb2⟩,
    fun h3 => ⟨by rw [hb1, if_neg h3], hb2⟩⟩

/-- Witness for C1: gene GA scores 1 against the de novo transcript, gene GB
scores 0, margin 1 at min_distance 2/5; GA is rescued. -/
theorem c1_witness :
    resolve_multiple_genes ⟨"d", "d", Finset.range 10⟩
      [⟨"a", "GA", Finset.range 10⟩, ⟨"b", "GB", (Finset.range 10).image fun n => n + 200⟩]
      (mkRat 2 5) (mkRat 1 4) = (some ("GA"), some ("rescued")) :=
  c1_unique_max_margin_rescued ⟨"d", "d", Finset.range 10⟩
    [⟨"a", "GA", Finset.range 10⟩, ⟨"b", "GB", (Finset.range 10).image fun n => n + 200⟩]
    (mkRat 2 5) (mkRat 1 4) ("GA") 1 (by decide) (by decide) (by decide) (by decide)
    (by decide) (by decide)

/-- Witness for C2: genes GA and GB both score 1/2 against the de novo
transcript while their own footprints are disjoint; the tie yields
ambiguousOrFusion. -/
theorem c2_witness :
    resolve_multiple_genes ⟨"d", "d", Finset.range 10⟩
      [⟨"a", "GA", Finset.range 5⟩, ⟨"b", "GB", (Finset.range 5).image fun n => n + 5⟩]
      (mkRat 2 5) (mkRat 1 4) = (none, some ("ambiguousOrFusion")) :=
  c2_tie_ambiguousOrFusion ⟨"d", "d", Finset.range 10⟩
    [⟨"a", "GA", Finset.range 5⟩, ⟨"b", "GB", (Finset.range 5).image fun n => n + 5⟩]
    (mkRat 2 5) (mkRat 1 4) ("GA") ("GB") (mkRat 1 2) (by decide) (by decide) (by decide)
    (by decide) (by decide)

/-- Witness for C4: a single filtered gene G1 whose transcript fully covers
the de novo transcript is assigned with null method. -/
theorem c4_witness :
    (mkRat 2 5) < calculate_tx_overlap ⟨"d", "d", Finset.range 10⟩
        (lookupD ("G1") (buildGeneToTxIds [⟨"t1", "G1", Finset.range 10⟩] []))
        (fun _ => ⟨"t1", "G1", Finset.range 10⟩) ∧
      (assignNoConflict ⟨"d", "d", Finset.range 10⟩ [⟨"t1", "G1", Finset.range 10⟩] []
        (fun _ => ⟨"t1", "G1", Finset.range 10⟩) (mkRat 2 5) (mkRat 1 4)).assignedGeneId =
        some ("G1") :=
  ⟨by decide,
    ((c4_single_candidate ⟨"d", "d", Finset.range 10⟩ [⟨"t1", "G1", Finset.range 10⟩] []
        (fun _ => ⟨"t1", "G1", Finset.range 10⟩) (mkRat 2 5) (mkRat 1 4) ("G1")
        (by decide)).1.1 (by decide)).1⟩

/-- Counterexample to C3: two candidate genes with identical footprints
(pairwise symmetric overlap 1 > tm_jaccard_distance 1/4) and a de novo
transcript overlapping neither; the multi-gene resolution classifies
badAnnotOrTm, but the emitted record carries a null ResolutionMethod because
no alternative gene passes min_distance. -/
theorem c3_counterexample :
    tmCheck [⟨"t1", "G1", Finset.range 10⟩, ⟨"t2", "G2", Finset.range 10⟩]
        (mkRat 1 4) = true ∧
      (mkRat 1 4) < find_highest_gene_jaccard [⟨"t1", "G1", Finset.range 10⟩]
        [⟨"t2", "G2", Finset.range 10⟩] ∧
      assignNoConflict ⟨"d", "d", (Finset.range 10).image fun n => n + 100⟩
        [⟨"t1", "G1", Finset.range 10⟩, ⟨"t2", "G2", Finset.range 10⟩] []
        (fun n => if n = "t1" then ⟨"t1", "G1", Finset.range 10⟩
          else ⟨"t2", "G2", Finset.range 10⟩)
        (mkRat 2 5) (mkRat 1 4) =
        ⟨"d", none, none, none⟩ := by
  refine ⟨by decide, by decide, by decide⟩

/-- Amended C3: when every pairwise symmetric overlap among the N ≥ 2
candidate genes exceeds tm_jaccard_distance, the multi-gene resolution step
returns (null, badAnnotOrTm) regardless of the de novo transcript's scores;
the emitted record has a null AssignedGeneId, and it retains ResolutionMethod
badAnnotOrTm exactly when some alternative gene's best asymmetric overlap
against the de novo transcript exceeds min_distance (otherwise the method is
downgraded to null by the alternative-gene step). -/
theorem c3_amended_badAnnot_downgrade (d : Transcript) (f u : List Transcript)
    (dict : String → Transcript) (md tj : ℚ)
    (hN : 1 < ((f.map fun tx => tx.name2).dedup).length)
    (htm : tmCheck f tj = true) :
    resolve_multiple_genes d f md tj = (none, some ("badAnnotOrTm")) ∧
      (assignNoConflict d f u dict md tj).assignedGeneId = none ∧
      (assignNoConflict d f u dict md tj).resolutionMethod =
        (if (altRetained d u (buildGeneToTxIds f u) dict md none).isEmpty then none
          else some ("badAnnotOrTm")) := by
  have hres : resolve_multiple_genes d f md tj = (none, some ("badAnnotOrTm")) := by
    rw [resolve_multiple_genes, if_pos htm]
  refine ⟨hres, ?_, ?_⟩
  · rw [assignNoConflict]
    simp only []
    rw [if_pos hN, hres]
    rfl
  · rw [assignNoConflict]
    simp only []
    rw [if_pos hN, hres]
    rfl

/-- Witness for the amended C3 at the counterexample input. -/
theorem c3_amended_witness :
    resolve_multiple_genes ⟨"d", "d", (Finset.range 10).image fun n => n + 100⟩
      [⟨"t1", "G1", Finset.range 10⟩, ⟨"t2", "G2", Finset.range 10⟩]
      (mkRat 2 5) (mkRat 1 4) = (none, some ("badAnnotOrTm")) :=
  (c3_amended_badAnnot_downgrade ⟨"d", "d", (Finset.range 10).image fun n => n + 100⟩
    [⟨"t1", "G1", Finset.range 10⟩, ⟨"t2", "G2", Finset.range 10⟩] []
    (fun n => if n = "t1" then ⟨"t1", "G1", Finset.range 10⟩
      else ⟨"t2", "G2", Finset.range 10⟩)
    (mkRat 2 5) (mkRat 1 4) (by decide) (by decide)).1

theorem finishRecord_assigned (d : Transcript) (pool : List Transcript)
    (g2t : List (String × List String)) (dict : String → Transcript) (md : ℚ)
    (rn rm : Option String) :
    (finishRecord d pool g2t dict md rn rm).assignedGeneId = rn := rfl

theorem finishRecord_alt (d : Transcript) (pool : List Transcript)
    (g2t : List (String × List String)) (dict : String → Transcript) (md : ℚ)
    (rn rm : Option String) :
    (finishRecord d pool g2t dict md rn rm).alternativeGeneIds =
      (if altRetained d pool g2t dict md rn = [] then none
        else some (String.intercalate (",") (sortStrings (altRetained d pool g2t dict md rn)))) := by
  have hfld : (finishRecord d pool g2t dict md rn rm).alternativeGeneIds =
      (if (altRetained d pool g2t dict md rn).isEmpty then none
        else some (String.intercalate (",")
          (sortStrings (altRetained d pool g2t dict md rn)))) := rfl
  rw [hfld]
  by_cases h : altRetained d pool g2t dict md rn = []
  · rw [if_pos (by simp [h]), if_pos h]
  · rw [if_neg (by simp [h]), if_neg h]

theorem mem_altRetained (d : Transcript) (pool : List Transcript)
    (g2t : List (String × List String)) (dict : String → Transcript) (md : ℚ)
    (rn : Option String) (g : String) :
    g ∈ altRetained d pool g2t dict md rn ↔
      g ∈ pool.map (fun tx => tx.name2) ∧ some g ≠ rn ∧
        md < calculate_tx_overlap d (lookupD g g2t) dict := by
  rw [altRetained]
  simp only [List.mem_filter, List.mem_dedup, decide_eq_true_eq, and_assoc]

/-- Counterexample to C7: two filtered genes, G1 rescued over G2, G2's best
overlap 1/2 exceeds min_distance 2/5, yet the emitted AlternativeGeneIds is
null (the no-conflict alternative pool holds only cluster transcripts absent
from the filtered set, which is empty here), and the rescue is downgraded. -/
theorem c7_counterexample :
    (assignNoConflict ⟨"d", "d", Finset.range 10⟩
        [⟨"t1", "G1", Finset.range 10⟩,
          ⟨"t2", "G2", ((Finset.range 5).image fun n => n + 5) ∪
            ((Finset.range 15).image fun n => n + 100)⟩] []
        (fun n => if n = "t1" then ⟨"t1", "G1", Finset.range 10⟩
          else ⟨"t2", "G2", ((Finset.range 5).image fun n => n + 5) ∪
            ((Finset.range 15).image fun n => n + 100)⟩)
        (mkRat 2 5) (mkRat 1 4)) =
      ⟨"d", some ("G1"), none, none⟩ ∧
    (mkRat 2 5) < calculate_tx_overlap ⟨"d", "d", Finset.range 10⟩ [("t2")]
      (fun n => if n = "t1" then ⟨"t1", "G1", Finset.range 10⟩
        else ⟨"t2", "G2", ((Finset.range 5).image fun n => n + 5) ∪
          ((Finset.range 15).image fun n => n + 100)⟩) := by
  exact ⟨by decide, by decide⟩

/-- Amended C7: AlternativeGeneIds is exactly the genes of the applicable pool
— the cluster transcripts absent from the filtered set when no exon conflicts
were reported, or the filtered transcripts not named in the conflict list when
they were — minus the assigned gene, restricted to genes whose best asymmetric
overlap exceeds min_distance, emitted as a sorted comma-joined string or null
when empty; in particular it never contains the AssignedGeneId nor a gene
with overlap at most min_distance. -/
theorem c7_amended_alternatives_exact (d : Transcript) (f u : List Transcript)
    (dict : String → Transcript) (md tj : ℚ) :
    (∃ L : List String,
      (∀ g, g ∈ L ↔ (g ∈ u.map (fun tx => tx.name2) ∧
        some g ≠ (assignNoConflict d f u dict md tj).assignedGeneId ∧
        md < calculate_tx_overlap d (lookupD g (buildGeneToTxIds f u)) dict)) ∧
      (assignNoConflict d f u dict md tj).alternativeGeneIds =
        (if L = [] then none else some (String.intercalate (",") (sortStrings L)))) ∧
    ∀ cs : List String, ∃ L : List String,
      (∀ g, g ∈ L ↔ (g ∈ (f.filter fun tx =>
          decide (¬ ∃ c ∈ cs, conflictTxId c = tx.name)).map (fun tx => tx.name2) ∧
        some g ≠ (assignWithConflicts d f u cs dict md tj).assignedGeneId ∧
        md < calculate_tx_overlap d (lookupD g (buildGeneToTxIds f u)) dict)) ∧
      (assignWithConflicts d f u cs dict md tj).alternativeGeneIds =
        (if L = [] then none else some (String.intercalate (",") (sortStrings L))) := by
  constructor
  · obtain ⟨rn, rm, -, heq⟩ := assignNoConflict_shape d f u dict md tj
    refine ⟨altRetained d u (buildGeneToTxIds f u) dict md rn, ?_, ?_⟩
    · intro g
      rw [heq, finishRecord_assigned]
      exact mem_altRetained d u (buildGeneToTxIds f u) dict md rn g
    · rw [heq, finishRecord_alt]
  · intro cs
    obtain ⟨rn, rm, -, heq⟩ := assignWithConflicts_shape d f u cs dict md tj
    refine ⟨altRetained d
      (f.filter fun tx => decide (¬ ∃ c ∈ cs, conflictTxId c = tx.name))
      (buildGeneToTxIds f u) dict md rn, ?_, ?_⟩
    · intro g
      rw [heq, finishRecord_assigned]
      exact mem_altRetained d _ (buildGeneToTxIds f u) dict md rn g
    · rw [heq, finishRecord_alt]

/-! ### Enumeration-order invariance (C10) -/

theorem pairs_map (f : α → β) : ∀ (l : List α),
    pairs (l.map f) = (pairs l).map fun p => (f p.1, f p.2) := by
  intro l
  induction l with
  | nil => rfl
  | cons x t ih =>
    simp only [List.map_cons, pairs, ih, List.map_append, List.map_map]
    rfl

theorem all_perm {l1 l2 : List α} (h : List.Perm l1 l2) (p : α → Bool) :
    l1.all p = l2.all p := by
  rw [Bool.eq_iff_iff, List.all_eq_true, List.all_eq_true]
  constructor
  · intro ha x hx
    exact ha x (h.mem_iff.mpr hx)
  · intro ha x hx
    exact ha x (h.mem_iff.mp hx)

theorem pairs_all_perm {l1 l2 : List α} (h : List.Perm l1 l2) (Q : α → α → Bool)
    (hsym : ∀ a b, Q a b = Q b a) :
    (pairs l1).all (fun p => Q p.1 p.2) = (pairs l2).all fun p => Q p.1 p.2 := by
  induction h with
  | nil => rfl
  | cons x h ih =>
    simp only [pairs, List.all_append]
    rw [ih, all_perm (h.map fun y => (x, y))]
  | swap x y l =>
    simp only [pairs, List.map_cons, List.all_cons, List.all_append, List.all_map]
    rw [hsym y x]
    ac_rfl
  | trans h1 h2 ih1 ih2 => rw [ih1, ih2]

theorem find_interval_perm {l1 l2 : List Transcript} (h : List.Perm l1 l2) :
    find_interval l1 = find_interval l2 := by
  induction h with
  | nil => rfl
  | cons x h ih =>
    simp only [find_interval, List.foldr_cons] at ih ⊢
    rw [ih]
  | swap x y l =>
    simp only [find_interval, List.foldr_cons]
    rw [← Finset.union_assoc, Finset.union_comm y.exons x.exons, Finset.union_assoc]
  | trans h1 h2 ih1 ih2 => rw [ih1, ih2]

theorem bed12Jaccard_comm (a b : Finset ℕ) : bed12Jaccard a b = bed12Jaccard b a := by
  rw [bed12Jaccard, bed12Jaccard, Finset.union_comm, Finset.inter_comm]

theorem foldl_max_step_perm (score : String → ℚ) {l1 l2 : List String}
    (h : List.Perm l1 l2) :
    ∀ b : ℚ, l1.foldl (fun best name =>
        if best < score name then score name else best) b =
      l2.foldl (fun best name => if best < score name then score name else best) b := by
  have hstep : ∀ (b : ℚ) (n : String),
      (if b < score n then score n else b) = max b (score n) := by
    intro b n
    by_cases h1 : b < score n
    · rw [if_pos h1, max_eq_right (le_of_lt h1)]
    · rw [if_neg h1, max_eq_left (not_lt.mp h1)]
  induction h with
  | nil => intro b; rfl
  | cons x h ih =>
    intro b
    simp only [List.foldl_cons]
    exact ih _
  | swap x y l =>
    intro b
    simp only [List.foldl_cons, hstep]
    rw [sup_right_comm]
  | trans h1 h2 ih1 ih2 =>
    intro b
    rw [ih1, ih2]

theorem calculate_tx_overlap_perm (tx : Transcript) {l1 l2 : List String}
    (h : List.Perm l1 l2) (dict : String → Transcript) :
    calculate_tx_overlap tx l1 dict = calculate_tx_overlap tx l2 dict :=
  foldl_max_step_perm (fun name => asymmetricJaccard tx.exons (dict name).exons) h 0

theorem bestScores_ne_nil (d : Transcript) {txs : List Transcript} (h : txs ≠ []) :
    bestScores d txs ≠ [] := by
  match txs with
  | [] => exact absurd rfl h
  | tx :: rest =>
    intro hbs
    have hmem : tx.name2 ∈ (bestScores d (tx :: rest)).map Prod.fst := by
      have h2 : (bestScores d (tx :: rest)).map Prod.fst =
          (geneScores d (tx :: rest)).map Prod.fst := by
        unfold bestScores
        rw [List.map_map]
        rfl
      rw [h2]
      exact (mem_keys_buildMulti _ _ _ _).mpr ⟨tx, List.mem_cons_self _ _, rfl⟩
    rw [hbs] at hmem
    simp at hmem

theorem mem_bestScores_iff (d : Transcript) (l : List Transcript) (g : String) (s : ℚ) :
    (g, s) ∈ bestScores d l ↔ (∃ tx ∈ l, tx.name2 = g) ∧
      s = maxList ((l.filter fun tx => decide (tx.name2 = g)).map
        fun tx => asymmetricJaccard d.exons tx.exons) := by
  rw [bestScores, geneScores, List.mem_map]
  constructor
  · intro ⟨p, hp, heq⟩
    rw [Prod.mk.injEq] at heq
    have hc := (mem_buildMulti_iff _ _ _ _ _).mp
      (show (p.1, p.2) ∈ buildMulti (fun tx => tx.name2)
        (fun tx => asymmetricJaccard d.exons tx.exons) l from hp)
    rw [heq.1] at hc
    refine ⟨hc.1, ?_⟩
    rw [← heq.2, hc.2]
  · intro ⟨hex, hs⟩
    refine ⟨(g, (l.filter fun tx => decide (tx.name2 = g)).map
      fun tx => asymmetricJaccard d.exons tx.exons), ?_, ?_⟩
    · exact (mem_buildMulti_iff _ _ _ _ _).mpr ⟨hex, rfl⟩
    · rw [Prod.mk.injEq]
      exact ⟨rfl, hs.symm⟩

theorem bestScores_perm (d : Transcript) {l1 l2 : List Transcript}
    (h : List.Perm l1 l2) : List.Perm (bestScores d l1) (bestScores d l2) := by
  apply (List.perm_ext_iff_of_nodup
    (List.Nodup.of_map Prod.fst (nodup_keys_bestScores d l1))
    (List.Nodup.of_map Prod.fst (nodup_keys_bestScores d l2))).mpr
  intro ⟨g, s⟩
  rw [mem_bestScores_iff, mem_bestScores_iff]
  constructor
  · intro ⟨⟨tx, htx, hg⟩, hs⟩
    refine ⟨⟨tx, h.mem_iff.mp htx, hg⟩, ?_⟩
    rw [hs]
    exact maxList_perm ((h.filter _).map _)
  · intro ⟨⟨tx, htx, hg⟩, hs⟩
    refine ⟨⟨tx, h.mem_iff.mpr htx, hg⟩, ?_⟩
    rw [hs]
    exact maxList_perm (((h.filter _).map _).symm)

theorem mem_geneFootprints_iff (l : List Transcript) (g : String) (S : Finset ℕ) :
    (g, S) ∈ ((buildMulti (fun tx => tx.name2) id l).map fun p => (p.1, find_interval p.2)) ↔
      (∃ tx ∈ l, tx.name2 = g) ∧
        S = find_interval (l.filter fun tx => decide (tx.name2 = g)) := by
  rw [List.mem_map]
  constructor
  · intro ⟨p, hp, heq⟩
    rw [Prod.mk.injEq] at heq
    have hc := (mem_buildMulti_iff (fun tx => tx.name2) id p.1 p.2 l).mp hp
    rw [heq.1] at hc
    refine ⟨hc.1, ?_⟩
    rw [← heq.2, hc.2, List.map_id]
  · intro ⟨hex, hS⟩
    refine ⟨(g, l.filter fun tx => decide (tx.name2 = g)), ?_, ?_⟩
    · apply (mem_buildMulti_iff (fun tx => tx.name2) id g _ l).mpr
      exact ⟨hex, (List.map_id _).symm⟩
    · rw [Prod.mk.injEq]
      exact ⟨rfl, hS.symm⟩

theorem geneFootprints_nodup (l : List Transcript) :
    ((buildMulti (fun tx => tx.name2) id l).map fun p => (p.1, find_interval p.2)).Nodup := by
  apply List.Nodup.of_map Prod.fst
  rw [List.map_map]
  have hc : (Prod.fst ∘ fun p : String × List Transcript => (p.1, find_interval p.2)) =
      Prod.fst := rfl
  rw [hc]
  exact nodup_keys_buildMulti _ _ _

theorem geneFootprints_perm {l1 l2 : List Transcript} (h : List.Perm l1 l2) :
    List.Perm ((buildMulti (fun tx => tx.name2) id l1).map fun p => (p.1, find_interval p.2))
      ((buildMulti (fun tx => tx.name2) id l2).map fun p => (p.1, find_interval p.2)) := by
  apply (List.perm_ext_iff_of_nodup (geneFootprints_nodup l1) (geneFootprints_nodup l2)).mpr
  intro ⟨g, S⟩
  rw [mem_geneFootprints_iff, mem_geneFootprints_iff]
  constructor
  · intro ⟨⟨tx, htx, hg⟩, hS⟩
    exact ⟨⟨tx, h.mem_iff.mp htx, hg⟩, hS.trans (find_interval_perm (h.filter _))⟩
  · intro ⟨⟨tx, htx, hg⟩, hS⟩
    exact ⟨⟨tx, h.mem_iff.mpr htx, hg⟩, hS.trans (find_interval_perm ((h.filter _).symm))⟩

theorem all_map2 (l : List α) (f : α → β) (p : β → Bool) :
    (l.map f).all p = l.all fun x => p (f x) := by
  induction l with
  | nil => rfl
  | cons x t ih => simp only [List.map_cons, List.all_cons, ih]

theorem tmCheck_perm {l1 l2 : List Transcript} (h : List.Perm l1 l2) (tj : ℚ) :
    tmCheck l1 tj = tmCheck l2 tj := by
  have key : ∀ (l : List Transcript), tmCheck l tj =
      (pairs ((buildMulti (fun tx => tx.name2) id l).map
        fun p => (p.1, find_interval p.2))).all
        fun p => decide (tj < bed12Jaccard p.1.2 p.2.2) := by
    intro l
    rw [tmCheck]
    simp only [pairs_map, all_map2]
    rfl
  rw [key l1, key l2]
  exact pairs_all_perm (geneFootprints_perm h)
    (fun a b => decide (tj < bed12Jaccard a.2 b.2))
    (fun a b => by
      show decide (tj < bed12Jaccard a.2 b.2) = decide (tj < bed12Jaccard b.2 a.2)
      rw [bed12Jaccard_comm])

theorem resolve_eq_of_filter_singleton (d : Transcript) (txs : List Transcript)
    (md tj : ℚ) (htm : tmCheck txs tj = false) {e : String × ℚ}
    (he : ((bestScores d txs).filter
      fun p => decide (p.2 = maxList ((bestScores d txs).map fun q => q.2))) = [e]) :
    resolve_multiple_genes d txs md tj =
      (if ((bestScores d txs).map fun p => p.2).all
          (fun x => decide (x = maxList ((bestScores d txs).map fun p => p.2) ∨
            md ≤ maxList ((bestScores d txs).map fun p => p.2) - x)) then
        (some e.1, some ("rescued"))
      else (none, some ("ambiguousOrFusion"))) := by
  obtain ⟨hfm, hlast⟩ := bestScores_max_filter_spec d txs he
  rw [resolve_multiple_genes, if_neg (by simp [htm])]
  simp only []
  by_cases hall : (((bestScores d txs).map fun p => p.2).all
      fun x => decide (x = maxList ((bestScores d txs).map fun p => p.2) ∨
        md ≤ maxList ((bestScores d txs).map fun p => p.2) - x)) = true
  · rw [if_pos hall, if_pos hall, List.getLastD_eq_getLast?, hlast, hfm]
    simp only [Option.getD_some]
    rw [if_neg (by simp)]
  · rw [if_neg hall, if_neg hall]

theorem resolve_eq_of_filter_two (d : Transcript) (txs : List Transcript)
    (md tj : ℚ) (htm : tmCheck txs tj = false)
    (hflen : 2 ≤ ((bestScores d txs).filter
      fun p => decide (p.2 = maxList ((bestScores d txs).map fun q => q.2))).length) :
    resolve_multiple_genes d txs md tj = (none, some ("ambiguousOrFusion")) := by
  have hfne : ((bestScores d txs).filter
      fun p => decide (p.2 = maxList ((bestScores d txs).map fun q => q.2))) ≠ [] := by
    intro hnil
    rw [hnil] at hflen
    simp at hflen
  have hbsne : bestScores d txs ≠ [] := by
    intro hnil
    apply hfne
    rw [hnil]
    rfl
  have hfnd : (((bestScores d txs).filter
      (fun p => decide (p.2 = maxList ((bestScores d txs).map fun q => q.2)))).map
        Prod.fst).Nodup :=
    List.Nodup.sublist ((List.filter_sublist _).map Prod.fst) (nodup_keys_bestScores d txs)
  obtain ⟨a, hhead⟩ : ∃ a, ((bestScores d txs).filter
      (fun p => decide (p.2 = maxList ((bestScores d txs).map fun q => q.2)))).head? =
        some a := ⟨_, List.head?_eq_head hfne⟩
  obtain ⟨b, hlastf⟩ : ∃ b, ((bestScores d txs).filter
      (fun p => decide (p.2 = maxList ((bestScores d txs).map fun q => q.2)))).getLast? =
        some b := ⟨_, List.getLast?_eq_getLast _ hfne⟩
  have hab : a.1 ≠ b.1 := head_ne_getLast_of_nodup_keys hfnd hflen hhead hlastf
  have hfm : firstMax (bestScores d txs) = some a :=
    (firstMax_eq_head_filter _ hbsne).trans hhead
  have hsl : (List.insertionSort scoreLE (bestScores d txs)).getLast? = some b :=
    (getLast?_insertionSort_filter _).trans hlastf
  rw [resolve_multiple_genes, if_neg (by simp [htm])]
  simp only []
  by_cases hall : (((bestScores d txs).map fun p => p.2).all
      fun x => decide (x = maxList ((bestScores d txs).map fun p => p.2) ∨
        md ≤ maxList ((bestScores d txs).map fun p => p.2) - x)) = true
  · rw [if_pos hall, List.getLastD_eq_getLast?, hsl, hfm]
    simp only [Option.getD_some]
    rw [if_pos hab.symm]
  · rw [if_neg hall]

theorem resolve_perm (d : Transcript) {l1 l2 : List Transcript} (h : List.Perm l1 l2)
    (md tj : ℚ) :
    resolve_multiple_genes d l1 md tj = resolve_multiple_genes d l2 md tj := by
  by_cases htm : tmCheck l1 tj = true
  · have htm2 : tmCheck l2 tj = true := (tmCheck_perm h tj).symm.trans htm
    rw [resolve_multiple_genes, resolve_multiple_genes, if_pos htm, if_pos htm2]
  · have htm1 : tmCheck l1 tj = false := by
      cases hcase : tmCheck l1 tj
      · rfl
      · exact absurd hcase htm
    have htm2 : tmCheck l2 tj = false := (tmCheck_perm h tj).symm.trans htm1
    by_cases hl1e : l1 = []
    · have hl2e : l2 = [] :=
        List.length_eq_zero.mp (by rw [← h.length_eq, hl1e]; rfl)
      rw [hl1e, hl2e]
    · have hbs1 := bestScores_ne_nil d hl1e
      have hbsp := bestScores_perm d h
      have hM : maxList ((bestScores d l2).map fun q => q.2) =
          maxList ((bestScores d l1).map fun q => q.2) :=
        maxList_perm ((hbsp.map _).symm)
      have hfp : List.Perm
          ((bestScores d l1).filter
            fun p => decide (p.2 = maxList ((bestScores d l1).map fun q => q.2)))
          ((bestScores d l2).filter
            fun p => decide (p.2 = maxList ((bestScores d l2).map fun q => q.2))) := by
        have hrw : ((bestScores d l2).filter
            fun p => decide (p.2 = maxList ((bestScores d l2).map fun q => q.2))) =
            ((bestScores d l2).filter
              fun p => decide (p.2 = maxList ((bestScores d l1).map fun q => q.2))) := by
          simp only [hM]
        rw [hrw]
        exact hbsp.filter _
      have hfne := filter_max_ne_nil hbs1
      cases hfil1 : ((bestScores d l1).filter
          fun p => decide (p.2 = maxList ((bestScores d l1).map fun q => q.2))) with
      | nil => exact absurd hfil1 hfne
      | cons e rest =>
        cases rest with
        | nil =>
          have hfil2 : ((bestScores d l2).filter
              fun p => decide (p.2 = maxList ((bestScores d l2).map fun q => q.2))) =
              [e] := by
            apply List.perm_singleton.mp
            rw [← hfil1]
            exact hfp.symm
          rw [resolve_eq_of_filter_singleton d l1 md tj htm1 hfil1,
            resolve_eq_of_filter_singleton d l2 md tj htm2 hfil2]
          have hcond : (((bestScores d l1).map fun p => p.2).all
              fun x => decide (x = maxList ((bestScores d l1).map fun p => p.2) ∨
                md ≤ maxList ((bestScores d l1).map fun p => p.2) - x)) =
              (((bestScores d l2).map fun p => p.2).all
              fun x => decide (x = maxList ((bestScores d l2).map fun p => p.2) ∨
                md ≤ maxList ((bestScores d l2).map fun p => p.2) - x)) := by
            simp only [hM]
            exact all_perm (hbsp.map _) _
          rw [hcond]
        | cons e2 rest2 =>
          have hlen1 : 2 ≤ ((bestScores d l1).filter
              fun p => decide (p.2 = maxList ((bestScores d l1).map fun q => q.2))).length := by
            rw [hfil1]
            simp [Nat.succ_le_succ]
          have hlen2 : 2 ≤ ((bestScores d l2).filter
              fun p => decide (p.2 = maxList ((bestScores d l2).map fun q => q.2))).length := by
            rw [← hfp.length_eq]
            exact hlen1
          rw [resolve_eq_of_filter_two d l1 md tj htm1 hlen1,
            resolve_eq_of_filter_two d l2 md tj htm2 hlen2]

theorem lookupA_perm_nodup {m1 m2 : List (String × γ)} (h : List.Perm m1 m2)
    (hnd : (m1.map Prod.fst).Nodup) (k : String) : lookupA k m1 = lookupA k m2 := by
  have hnd2 : (m2.map Prod.fst).Nodup := ((h.map Prod.fst).nodup_iff).mp hnd
  cases o1 : lookupA k m1 with
  | some v =>
    exact ((mem_iff_lookupA hnd2 k v).mp
      (h.mem_iff.mp ((mem_iff_lookupA hnd k v).mpr o1))).symm
  | none =>
    cases o2 : lookupA k m2 with
    | none => rfl
    | some v =>
      have hc := (mem_iff_lookupA hnd k v).mp
        (h.mem_iff.mpr ((mem_iff_lookupA hnd2 k v).mpr o2))
      rw [hc] at o1
      exact absurd o1 (by simp)

theorem overlap_lookupD_perm (d : Transcript) {f1 u1 f2 u2 : List Transcript}
    (hf : List.Perm f1 f2) (hu : List.Perm u1 u2) (dict : String → Transcript)
    (g : String) :
    calculate_tx_overlap d (lookupD g (buildGeneToTxIds f1 u1)) dict =
      calculate_tx_overlap d (lookupD g (buildGeneToTxIds f2 u2)) dict := by
  apply calculate_tx_overlap_perm
  rw [buildGeneToTxIds, buildGeneToTxIds, lookupD_buildMulti, lookupD_buildMulti]
  exact ((hf.append hu).filter _).map _

theorem altRetained_perm (d : Transcript) {p1 p2 f1 u1 f2 u2 : List Transcript}
    (hp : List.Perm p1 p2) (hf : List.Perm f1 f2) (hu : List.Perm u1 u2)
    (dict : String → Transcript) (md : ℚ) (rn : Option String) :
    List.Perm (altRetained d p1 (buildGeneToTxIds f1 u1) dict md rn)
      (altRetained d p2 (buildGeneToTxIds f2 u2) dict md rn) := by
  rw [altRetained, altRetained]
  have hpred : (fun g => decide
      (md < calculate_tx_overlap d (lookupD g (buildGeneToTxIds f1 u1)) dict)) =
      (fun g => decide
        (md < calculate_tx_overlap d (lookupD g (buildGeneToTxIds f2 u2)) dict)) := by
    funext g
    rw [overlap_lookupD_perm d hf hu dict g]
  rw [hpred]
  exact ((((hp.map _).dedup).filter _).filter _)

theorem sortStrings_eq_of_perm {l1 l2 : List String} (h : List.Perm l1 l2) :
    sortStrings l1 = sortStrings l2 :=
  List.eq_of_perm_of_sorted
    ((List.perm_insertionSort _ l1).trans (h.trans (List.perm_insertionSort _ l2).symm))
    (List.sorted_insertionSort (fun a b : String => a ≤ b) l1)
    (List.sorted_insertionSort (fun a b : String => a ≤ b) l2)

theorem finishRecord_perm (d : Transcript) {p1 p2 f1 u1 f2 u2 : List Transcript}
    (hp : List.Perm p1 p2) (hf : List.Perm f1 f2) (hu : List.Perm u1 u2)
    (dict : String → Transcript) (md : ℚ) (rn rm : Option String) :
    finishRecord d p1 (buildGeneToTxIds f1 u1) dict md rn rm =
      finishRecord d p2 (buildGeneToTxIds f2 u2) dict md rn rm := by
  have haperm := altRetained_perm d hp hf hu dict md rn
  have hsort : sortStrings (altRetained d p1 (buildGeneToTxIds f1 u1) dict md rn) =
      sortStrings (altRetained d p2 (buildGeneToTxIds f2 u2) dict md rn) :=
    sortStrings_eq_of_perm haperm
  have hemp : (altRetained d p1 (buildGeneToTxIds f1 u1) dict md rn).isEmpty =
      (altRetained d p2 (buildGeneToTxIds f2 u2) dict md rn).isEmpty := by
    rw [Bool.eq_iff_iff, List.isEmpty_eq_true, List.isEmpty_eq_true]
    constructor
    · intro hh
      exact List.Perm.eq_nil (hh ▸ haperm).symm
    · intro hh
      exact List.Perm.eq_nil (hh ▸ haperm)
  rw [finishRecord, finishRecord, hsort, hemp]

theorem keys_buildMulti_perm (key : α → String) (val : α → β) {L1 L2 : List α}
    (h : List.Perm L1 L2) :
    List.Perm ((buildMulti key val L1).map Prod.fst) ((buildMulti key val L2).map Prod.fst) := by
  apply (List.perm_ext_iff_of_nodup (nodup_keys_buildMulti key val L1)
    (nodup_keys_buildMulti key val L2)).mpr
  intro g
  rw [mem_keys_buildMulti, mem_keys_buildMulti]
  constructor
  · exact fun ⟨x, hx, hk⟩ => ⟨x, h.mem_iff.mp hx, hk⟩
  · exact fun ⟨x, hx, hk⟩ => ⟨x, h.mem_iff.mpr hx, hk⟩

theorem map_fst_filter_of_key (m : List (String × γ)) (pred : String × γ → Bool)
    (P : String → Bool) (hpt : ∀ p ∈ m, pred p = P p.1) :
    (m.filter pred).map Prod.fst = (m.map Prod.fst).filter P := by
  induction m with
  | nil => rfl
  | cons p t ih =>
    have hp := hpt p (List.mem_cons_self _ _)
    rw [List.filter_cons, List.map_cons, List.filter_cons, ← hp]
    by_cases hc : pred p = true
    · rw [if_pos hc, if_pos hc, List.map_cons,
        ih fun q hq => hpt q (List.mem_cons_of_mem _ hq)]
    · rw [if_neg hc, if_neg hc, ih fun q hq => hpt q (List.mem_cons_of_mem _ hq)]

theorem nonoverlapping_eq_keys_filter (f u : List Transcript) (cs : List String) :
    nonoverlappingGeneIds f u cs =
      ((buildGeneToTxIds f u).map Prod.fst).filter fun g =>
        decide (0 < (cs.filter fun c => decide (lookupA (conflictTxId c)
            ((f ++ u).map fun tx => (tx.name, tx.name2)) = some g)).length ∧
          (cs.filter fun c => decide (lookupA (conflictTxId c)
            ((f ++ u).map fun tx => (tx.name, tx.name2)) = some g)).length =
          ((f ++ u).filter fun tx => decide (tx.name2 = g)).length) := by
  rw [nonoverlappingGeneIds]
  apply map_fst_filter_of_key
  intro p hp
  rw [buildGeneToTxIds] at hp
  have hc := (mem_buildMulti_iff (fun tx => tx.name2) (fun tx => tx.name) p.1 p.2
    (f ++ u)).mp hp
  apply decide_eq_decide.mpr
  rw [hc.2, List.length_map]

theorem nonoverlappingGeneIds_perm {f1 u1 f2 u2 : List Transcript}
    (hf : List.Perm f1 f2) (hu : List.Perm u1 u2)
    (hnames : ((f1 ++ u1).map fun tx => tx.name).Nodup) (cs : List String) :
    List.Perm (nonoverlappingGeneIds f1 u1 cs) (nonoverlappingGeneIds f2 u2 cs) := by
  rw [nonoverlapping_eq_keys_filter, nonoverlapping_eq_keys_filter]
  have happ : List.Perm (f1 ++ u1) (f2 ++ u2) := hf.append hu
  have hnd1 : (((f1 ++ u1).map fun tx => (tx.name, tx.name2)).map Prod.fst).Nodup := by
    rw [keys_txToGene]
    exact hnames
  have hP : (fun g => decide (0 < (cs.filter fun c => decide (lookupA (conflictTxId c)
      ((f1 ++ u1).map fun tx => (tx.name, tx.name2)) = some g)).length ∧
      (cs.filter fun c => decide (lookupA (conflictTxId c)
        ((f1 ++ u1).map fun tx => (tx.name, tx.name2)) = some g)).length =
      ((f1 ++ u1).filter fun tx => decide (tx.name2 = g)).length)) =
      (fun g => decide (0 < (cs.filter fun c => decide (lookupA (conflictTxId c)
        ((f2 ++ u2).map fun tx => (tx.name, tx.name2)) = some g)).length ∧
        (cs.filter fun c => decide (lookupA (conflictTxId c)
          ((f2 ++ u2).map fun tx => (tx.name, tx.name2)) = some g)).length =
        ((f2 ++ u2).filter fun tx => decide (tx.name2 = g)).length)) := by
    funext g
    have hl : (fun c => decide (lookupA (conflictTxId c)
        ((f1 ++ u1).map fun tx => (tx.name, tx.name2)) = some g)) =
        (fun c => decide (lookupA (conflictTxId c)
          ((f2 ++ u2).map fun tx => (tx.name, tx.name2)) = some g)) := by
      funext c
      rw [lookupA_perm_nodup (happ.map _) hnd1 (conflictTxId c)]
    rw [hl, (happ.filter fun tx => decide (tx.name2 = g)).length_eq]
  rw [hP]
  exact (keys_buildMulti_perm _ _ happ).filter _

theorem assignNoConflict_perm (d : Transcript) {f1 f2 u1 u2 : List Transcript}
    (hf : List.Perm f1 f2) (hu : List.Perm u1 u2) (dict : String → Transcript)
    (md tj : ℚ) :
    assignNoConflict d f1 u1 dict md tj = assignNoConflict d f2 u2 dict md tj := by
  rw [assignNoConflict, assignNoConflict]
  simp only []
  have hded : List.Perm ((f1.map fun tx => tx.name2).dedup)
      ((f2.map fun tx => tx.name2).dedup) := (hf.map _).dedup
  have hlen := hded.length_eq
  have hfin : ∀ rn rm, finishRecord d u1 (buildGeneToTxIds f1 u1) dict md rn rm =
      finishRecord d u2 (buildGeneToTxIds f2 u2) dict md rn rm :=
    fun rn rm => finishRecord_perm d hu hf hu dict md rn rm
  by_cases h1 : 1 < ((f1.map fun tx => tx.name2).dedup).length
  · have h1b : 1 < ((f2.map fun tx => tx.name2).dedup).length := hlen ▸ h1
    rw [if_pos h1, if_pos h1b, resolve_perm d hf md tj, hfin]
  · have h1b : ¬ 1 < ((f2.map fun tx => tx.name2).dedup).length := by
      rw [← hlen]
      exact h1
    rw [if_neg h1, if_neg h1b]
    by_cases h2 : ((f1.map fun tx => tx.name2).dedup).length = 1
    · have h2b : ((f2.map fun tx => tx.name2).dedup).length = 1 := hlen ▸ h2
      obtain ⟨G, hG⟩ := List.length_eq_one.mp h2
      have hG2 : ((f2.map fun tx => tx.name2).dedup) = [G] :=
        List.perm_singleton.mp (hG ▸ hded).symm
      rw [if_pos h2, if_pos h2b, hG, hG2]
      simp only [List.headD_cons]
      rw [overlap_lookupD_perm d hf hu dict G]
      by_cases h3 : md < calculate_tx_overlap d (lookupD G (buildGeneToTxIds f2 u2)) dict
      · rw [if_pos h3, hfin]
      · rw [if_neg h3, hfin]
    · have h2b : ¬ ((f2.map fun tx => tx.name2).dedup).length = 1 := by
        rw [← hlen]
        exact h2
      rw [if_neg h2, if_neg h2b, hfin]

theorem assignWithConflicts_perm (d : Transcript) {f1 f2 u1 u2 : List Transcript}
    (cs : List String) (hf : List.Perm f1 f2) (hu : List.Perm u1 u2)
    (hnames : ((f1 ++ u1).map fun tx => tx.name).Nodup)
    (dict : String → Transcript) (md tj : ℚ) :
    assignWithConflicts d f1 u1 cs dict md tj =
      assignWithConflicts d f2 u2 cs dict md tj := by
  rw [assignWithConflicts, assignWithConflicts]
  simp only []
  have hded : List.Perm ((f1.map fun tx => tx.name2).dedup)
      ((f2.map fun tx => tx.name2).dedup) := (hf.map _).dedup
  have hlen := hded.length_eq
  have hnon := nonoverlappingGeneIds_perm hf hu hnames cs
  have hnonP : (fun g => decide (g ∉ nonoverlappingGeneIds f1 u1 cs)) =
      (fun g => decide (g ∉ nonoverlappingGeneIds f2 u2 cs)) := by
    funext g
    exact decide_eq_decide.mpr (not_congr hnon.mem_iff)
  have hov : List.Perm (((f1.map fun tx => tx.name2).dedup).filter
      fun g => decide (g ∉ nonoverlappingGeneIds f1 u1 cs))
      (((f2.map fun tx => tx.name2).dedup).filter
        fun g => decide (g ∉ nonoverlappingGeneIds f2 u2 cs)) := by
    rw [hnonP]
    exact hded.filter _
  have hovlen := hov.length_eq
  have href : List.Perm (f1.filter fun tx =>
      decide (¬ ∃ c ∈ cs, conflictTxId c = tx.name))
      (f2.filter fun tx => decide (¬ ∃ c ∈ cs, conflictTxId c = tx.name)) :=
    hf.filter _
  have hfin : ∀ rn rm, finishRecord d
      (f1.filter fun tx => decide (¬ ∃ c ∈ cs, conflictTxId c = tx.name))
      (buildGeneToTxIds f1 u1) dict md rn rm =
      finishRecord d (f2.filter fun tx => decide (¬ ∃ c ∈ cs, conflictTxId c = tx.name))
        (buildGeneToTxIds f2 u2) dict md rn rm :=
    fun rn rm => finishRecord_perm d href hf hu dict md rn rm
  by_cases h1 : (((f1.map fun tx => tx.name2).dedup).filter
      fun g => decide (g ∉ nonoverlappingGeneIds f1 u1 cs)).length = 0
  · have h1b : (((f2.map fun tx => tx.name2).dedup).filter
        fun g => decide (g ∉ nonoverlappingGeneIds f2 u2 cs)).length = 0 := hovlen ▸ h1
    rw [if_pos h1, if_pos h1b, hfin]
  · have h1b : ¬ (((f2.map fun tx => tx.name2).dedup).filter
        fun g => decide (g ∉ nonoverlappingGeneIds f2 u2 cs)).length = 0 := by
      rw [← hovlen]
      exact h1
    rw [if_neg h1, if_neg h1b]
    by_cases h2 : ((f1.map fun tx => tx.name2).dedup).length = 1
    · have h2b : ((f2.map fun tx => tx.name2).dedup).length = 1 := hlen ▸ h2
      obtain ⟨G, hG⟩ := List.length_eq_one.mp h2
      have hG2 : ((f2.map fun tx => tx.name2).dedup) = [G] :=
        List.perm_singleton.mp (hG ▸ hded).symm
      rw [if_pos h2, if_pos h2b, hG, hG2]
      simp only [List.headD_cons]
      rw [overlap_lookupD_perm d hf hu dict G]
      by_cases h3 : md < calculate_tx_overlap d (lookupD G (buildGeneToTxIds f2 u2)) dict
      · rw [if_pos h3, hfin]
      · rw [if_neg h3, hfin]
    · have h2b : ¬ ((f2.map fun tx => tx.name2).dedup).length = 1 := by
        rw [← hlen]
        exact h2
      rw [if_neg h2, if_neg h2b]
      by_cases h4 : 0 < (nonoverlappingGeneIds f1 u1 cs).length
      · have h4b : 0 < (nonoverlappingGeneIds f2 u2 cs).length := hnon.length_eq ▸ h4
        rw [if_pos h4, if_pos h4b]
        by_cases h5 : 1 < (((f1.map fun tx => tx.name2).dedup).filter
            fun g => decide (g ∉ nonoverlappingGeneIds f1 u1 cs)).length
        · have h5b : 1 < (((f2.map fun tx => tx.name2).dedup).filter
              fun g => decide (g ∉ nonoverlappingGeneIds f2 u2 cs)).length := hovlen ▸ h5
          rw [if_pos h5, if_pos h5b, resolve_perm d href md tj, hfin]
        · have h5b : ¬ 1 < (((f2.map fun tx => tx.name2).dedup).filter
              fun g => decide (g ∉ nonoverlappingGeneIds f2 u2 cs)).length := by
            rw [← hovlen]
            exact h5
          rw [if_neg h5, if_neg h5b]
          obtain ⟨G, hG⟩ : ∃ G, (((f1.map fun tx => tx.name2).dedup).filter
              fun g => decide (g ∉ nonoverlappingGeneIds f1 u1 cs)) = [G] := by
            apply List.length_eq_one.mp
            omega
          have hG2 : (((f2.map fun tx => tx.name2).dedup).filter
              fun g => decide (g ∉ nonoverlappingGeneIds f2 u2 cs)) = [G] :=
            List.perm_singleton.mp (hG ▸ hov).symm
          rw [hG, hG2]
          simp only [List.headD_cons]
          rw [overlap_lookupD_perm d hf hu dict G]
          by_cases h6 : md < calculate_tx_overlap d
              (lookupD G (buildGeneToTxIds f2 u2)) dict
          · rw [if_pos h6, hfin]
          · rw [if_neg h6, hfin]
      · have h4b : ¬ 0 < (nonoverlappingGeneIds f2 u2 cs).length := by
          rw [← hnon.length_eq]
          exact h4
        rw [if_neg h4, if_neg h4b]
        by_cases h7 : 1 < (((f1.map fun tx => tx.name2).dedup).filter
            fun g => decide (g ∉ nonoverlappingGeneIds f1 u1 cs)).length
        · have h7b : 1 < (((f2.map fun tx => tx.name2).dedup).filter
              fun g => decide (g ∉ nonoverlappingGeneIds f2 u2 cs)).length := hovlen ▸ h7
          rw [if_pos h7, if_pos h7b, resolve_perm d hf md tj, hfin]
        · have h7b : ¬ 1 < (((f2.map fun tx => tx.name2).dedup).filter
              fun g => decide (g ∉ nonoverlappingGeneIds f2 u2 cs)).length := by
            rw [← hovlen]
            exact h7
          rw [if_neg h7, if_neg h7b, hfin]

/-- C10: the per-transcript resolution result does not depend on the
enumeration order of the cluster's transcript sets: permuting the filtered and
unfiltered-only transcript enumerations (for duplicate-free transcript names,
as the genePred dictionaries guarantee) yields the identical AssignmentRecord,
so re-running the resolution produces identical records. -/
theorem c10_enumeration_order_invariant (d : Transcript) (f1 f2 u1 u2 : List Transcript)
    (confs : Option (List String)) (dict : String → Transcript) (md tj : ℚ)
    (hf : List.Perm f1 f2) (hu : List.Perm u1 u2)
    (hnames : ((f1 ++ u1).map fun tx => tx.name).Nodup) :
    assignRecord d f1 u1 confs dict md tj = assignRecord d f2 u2 confs dict md tj := by
  match confs with
  | none => exact assignNoConflict_perm d hf hu dict md tj
  | some cs => exact assignWithConflicts_perm d cs hf hu hnames dict md tj

/-- Witness for C10: swapping the enumeration order of two filtered
transcripts leaves the record unchanged. -/
theorem c10_witness :
    assignRecord ⟨"d", "d", Finset.range 10⟩
      [⟨"t1", "G1", Finset.range 10⟩, ⟨"t2", "G2", Finset.range 5⟩] [] none
      (fun n => if n = "t1" then ⟨"t1", "G1", Finset.range 10⟩
        else ⟨"t2", "G2", Finset.range 5⟩) (mkRat 2 5) (mkRat 1 4) =
    assignRecord ⟨"d", "d", Finset.range 10⟩
      [⟨"t2", "G2", Finset.range 5⟩, ⟨"t1", "G1", Finset.range 10⟩] [] none
      (fun n => if n = "t1" then ⟨"t1", "G1", Finset.range 10⟩
        else ⟨"t2", "G2", Finset.range 5⟩) (mkRat 2 5) (mkRat 1 4) :=
  c10_enumeration_order_invariant ⟨"d", "d", Finset.range 10⟩
    [⟨"t1", "G1", Finset.range 10⟩, ⟨"t2", "G2", Finset.range 5⟩]
    [⟨"t2", "G2", Finset.range 5⟩, ⟨"t1", "G1", Finset.range 10⟩] [] [] none
    (fun n => if n = "t1" then ⟨"t1", "G1", Finset.range 10⟩
      else ⟨"t2", "G2", Finset.range 5⟩) (mkRat 2 5) (mkRat 1 4)
    (List.Perm.swap _ _ _) (List.Perm.refl _) (by decide)

/-- Witness for C9: a cluster row naming a de novo transcript id absent from
the de novo dictionary makes the partitioning fail. -/
theorem c9_witness :
    ∃ e, collectClusterTxs [⟨"missing", true⟩] [] [] [] = Except.error e :=
  c9_missing_id_fails_fast [⟨"missing", true⟩] [] [] []
    ⟨⟨"missing", true⟩, List.mem_cons_self _ _, Or.inl ⟨rfl, rfl⟩⟩

end CAT
